import Mathlib

/-!
# QmakePatch: in-place rewriting of reserved text fields in a binary image

A shallow embedding of `qmakepatch.c`.

* The image buffer (`ImageInfo_t.Data`, `Size` bytes) is a `List Nat` of byte
  values; `Size` is its length.  Positions are indices into that list, so the
  pointer `Data + i` is the number `i`.
* A read at an index outside the buffer is not defined by C and may trap.  The
  only such index the program can touch is `Size` itself (one past the last
  byte), in `FindNonZeroByte` and in the printability test of
  `RewriteFieldWithBeacon`.  The functions below give the result of the run in
  which that read returns a byte, the parameter `past`; which runs make the
  read is recorded by `FindNonZeroByte.reads`, `RewriteField.padReads` and
  `RewriteFieldWithBeacon.scanReads`, which list the indices read.
* A C string is the list of its bytes before the terminating NUL; the
  terminator is implicit, and `s ++ [0]` are the `strlen s + 1` bytes the
  program copies or searches for.
* Diagnostics written to `stderr` are not modelled; the arguments that only
  feed them (`pcFieldName`, `nFieldNameBytes`, `fVerbose`) are dropped.  The
  one exception is the diagnostic of `WriteImage` after a failed `fclose`, whose
  arguments do not match its format: that path does not return.
* The file is the list of its bytes; whether each library call on it succeeds
  is given by a record `FileOps`, so that every path of `ReadImage` and
  `WriteImage` can be taken.
-/

namespace QmakePatch

/-- Sanity limit for the reserved area of one field (`FIELD_RESERVED_AREA_LIMIT`). -/
def FIELD_RESERVED_AREA_LIMIT : Nat := 4096

/-- Largest value of `size_t` (`SIZE_C(-1)`) on a 64-bit target. -/
def SIZE_MAX : Nat := 2 ^ 64 - 1

/-- Result codes (`RetCode_t`). -/
inductive RetCode_t
  | Success
  | BadSyntax
  | BadConfig
  | GenericFailure
  | FileFailure
  | DataFailure
  deriving DecidableEq

open RetCode_t

/-- The image held in memory (`ImageInfo_t`): the bytes and the cached
search start position for `qt_xxxxpath` variables. -/
structure ImageInfo_t where
  Data : List Nat
  Offset : Nat
  deriving DecidableEq

/-- The field `Size` of `ImageInfo_t`: the number of bytes of `Data`. -/
def ImageInfo_t.Size (im : ImageInfo_t) : Nat := im.Data.length

/-- The byte code of each character of a literal, e.g. `str "-v" = [45, 118]`. -/
def str (s : String) : List Nat := s.data.map Char.toNat

/-- A read of the byte at index `i`: the stored byte inside the buffer, the
byte `past` at an index outside it (when such a read returns at all). -/
def peek (img : List Nat) (past : Nat) (i : Nat) : Nat := img.getD i past

/-- Library `isprint` in the "C" locale (the program never calls `setlocale`):
the codes from space to tilde. -/
def isprint (c : Nat) : Bool := decide (0x20 ≤ c ∧ c ≤ 0x7e)

/-- Index of the first byte equal to `c` in a window, if any. -/
def memchr.go (c : Nat) : List Nat → Option Nat
  | [] => none
  | b :: t => if b = c then some 0 else (memchr.go c t).map (· + 1)

/-- Library `memchr(img + s, c, n)`: position of the first byte equal to `c`
among the `n` bytes from index `s`, or `none` for `NULL`. -/
def memchr (img : List Nat) (s c n : Nat) : Option Nat :=
  (memchr.go c ((img.drop s).take n)).map (s + ·)

/-- Index of the first occurrence of `needle` in a window, if any. -/
def memmem.go (needle : List Nat) : List Nat → Option Nat
  | [] => if needle = [] then some 0 else none
  | b :: t => if needle <+: b :: t then some 0 else (memmem.go needle t).map (· + 1)

/-- Library `memmem(img + s, n, needle, needle.length)`: position of the first
occurrence of `needle` lying wholly inside the `n` bytes from index `s`, or
`none` for `NULL`. -/
def memmem (img : List Nat) (s n : Nat) (needle : List Nat) : Option Nat :=
  (memmem.go needle ((img.drop s).take n)).map (s + ·)

/-- Library `strchr(s, c)` as an index into the string, `none` for `NULL`. -/
def strchr : List Nat → Nat → Option Nat
  | [], c => if c = 0 then some 0 else none
  | b :: t, c => if b = c then some 0 else if b = 0 then none else (strchr t c).map (· + 1)

/-- Library `strchrnul(s, c)` as an index into the string: the first `c`, or
the terminator when there is none. -/
def strchrnul : List Nat → Nat → Nat
  | [], _ => 0
  | b :: t, c => if b = c ∨ b = 0 then 0 else strchrnul t c + 1

/-- Library `strncmp(a, b, n)`: compares at most `n` characters and stops at a
terminator; the sign of the result is that of the first difference. -/
def strncmp : List Nat → List Nat → Nat → Int
  | _, _, 0 => 0
  | a, b, n + 1 =>
    let ca := a.headD 0
    let cb := b.headD 0
    if ca ≠ cb then (ca : Int) - (cb : Int)
    else if ca = 0 then 0
    else strncmp a.tail b.tail n

/-- Library `memcpy(img + dst, src, src.length)`. -/
def memcpy (img : List Nat) (dst : Nat) (src : List Nat) : List Nat :=
  img.take dst ++ src ++ img.drop (dst + src.length)

/-- Library `memset(img + dst, c, n)`. -/
def memset (img : List Nat) (dst c n : Nat) : List Nat :=
  img.take dst ++ List.replicate n c ++ img.drop (dst + n)

/-- The difference of two pointers stored into a `size_t`: it wraps when the
first pointer is the lower one. -/
def sizeDiff (a b : Nat) : Nat := if b ≤ a then a - b else SIZE_MAX + 1 - (b - a)

/-- The loop of `FindNonZeroByte`: `while (!*pcCur && pcCur < pvEnd) ++pcCur;`.
The byte is read before the bound is tested, so the loop reads the byte at
`pvEnd` itself whenever it gets there; `FindNonZeroByte.goReads` lists the
indices read. -/
def FindNonZeroByte.go (img : List Nat) (past pvEnd : Nat) : Nat → Nat → Nat
  | 0, pcCur => pcCur
  | fuel + 1, pcCur =>
    if peek img past pcCur = 0 ∧ pcCur < pvEnd then FindNonZeroByte.go img past pvEnd fuel (pcCur + 1)
    else pcCur

/-- Finds the first non-zero byte after `pvBegin` until `pvEnd` (not inclusive).
The loop makes at most `pvEnd - pvBegin` steps, so the fuel is never used up. -/
def FindNonZeroByte (img : List Nat) (past pvBegin pvEnd : Nat) : Nat :=
  FindNonZeroByte.go img past pvEnd (pvEnd + 1 - pvBegin) pvBegin

/-- Function `RewriteField`: resolves the end of the value and of its zero
padding, checks the sanity limit and the fit, then copies the replacement to the
area beginning and zero-fills the rest of the reserved area.  Returns the code
and the buffer.  The replacement is the list of its `nFieldReplacementBytes`
bytes.  The length handed to `memchr` is exact for
`pvFieldValueBeginning ≤ pvDataEnd`, which both callers ensure. -/
def RewriteField (img : List Nat) (past : Nat)
    (pvFieldAreaBeginning pvFieldValueBeginning pvDataEnd : Nat)
    (pvFieldReplacement : List Nat) : RetCode_t × List Nat :=
  match memchr img pvFieldValueBeginning 0 (pvDataEnd - pvFieldValueBeginning) with
  | none => (DataFailure, img)
  | some pcFoundEnd =>
    if sizeDiff pcFoundEnd pvFieldAreaBeginning > FIELD_RESERVED_AREA_LIMIT then
      (DataFailure, img)
    else
      let pcFoundEnd2 := FindNonZeroByte img past (pcFoundEnd + 1) pvDataEnd
      if pcFoundEnd2 ≥ pvDataEnd then (DataFailure, img)
      else
        let nBytesReserved := sizeDiff pcFoundEnd2 pvFieldAreaBeginning
        if nBytesReserved > FIELD_RESERVED_AREA_LIMIT then (DataFailure, img)
        else if pvFieldReplacement.length > nBytesReserved then (DataFailure, img)
        else
          (Success,
            memset (memcpy img pvFieldAreaBeginning pvFieldReplacement)
              (pvFieldAreaBeginning + pvFieldReplacement.length) 0
              (nBytesReserved - pvFieldReplacement.length))

/-- The `while (nDataBytes)` loop of `RewriteFieldWithBeacon`, from the state
`(pvDataBeginning, nDataBytes)`.  `none`: out of fuel.  `some none`: the loop
ended in one of the two "could not find beacon" exits (both return
`DataFailure`).  `some (some p)`: `break` with `pcFoundBeginning = p`, the
position right after the matched beacon and its terminator. -/
def RewriteFieldWithBeacon.scan (img : List Nat) (past : Nat) (needle : List Nat) :
    Nat → Nat → Nat → Option (Option Nat)
  | 0, _, _ => none
  | fuel + 1, pvDataBeginning, nDataBytes =>
    if nDataBytes = 0 then some none
    else
      match memmem img pvDataBeginning nDataBytes needle with
      | none => some none
      | some pcFound =>
        let pcFoundBeginning := pcFound + needle.length
        if isprint (peek img past pcFoundBeginning) then some (some pcFoundBeginning)
        else
          RewriteFieldWithBeacon.scan img past needle fuel pcFoundBeginning
            (nDataBytes - (pcFoundBeginning - pvDataBeginning))

/-- Function `RewriteFieldWithBeacon`: searches `beacon + NUL` followed by a
printable byte and rewrites the field that starts right after it.  Every pass
of the loop takes at least one byte off `nDataBytes`, so `Size + 1` passes are
enough; `none` only if the scan ran out of fuel. -/
def RewriteFieldWithBeacon (im : ImageInfo_t) (past : Nat)
    (pszBeacon pszReplacement : List Nat) : Option (RetCode_t × ImageInfo_t) :=
  match RewriteFieldWithBeacon.scan im.Data past (pszBeacon ++ [0]) (im.Size + 1) 0 im.Size with
  | none => none
  | some none => some (DataFailure, im)
  | some (some pcFoundBeginning) =>
    let r := RewriteField im.Data past pcFoundBeginning pcFoundBeginning im.Size
      (pszReplacement ++ [0])
    some (r.1, { im with Data := r.2 })

/-- Function `RewriteVersion`: dispatches on the major version (the characters
before the first `.`, code 46) to the beacons of that release line.  Every
candidate beacon of a release line is tried, each on the buffer left by the one
before. -/
def RewriteVersion (im : ImageInfo_t) (past : Nat) (pszVersion : List Nat) :
    Option (RetCode_t × ImageInfo_t) :=
  if pszVersion.headD 0 = 0 then some (Success, im)
  else
    let nBytesMajor := strchrnul pszVersion 46
    if strncmp pszVersion (str "1") nBytesMajor = 0 ∨
        strncmp pszVersion (str "2") nBytesMajor = 0 then
      some (BadConfig, im)
    else if strncmp pszVersion (str "3") nBytesMajor = 0 then
      RewriteFieldWithBeacon im past (str "-version") pszVersion
    else if strncmp pszVersion (str "4") nBytesMajor = 0 then
      match RewriteFieldWithBeacon im past (str "-version") pszVersion with
      | none => none
      | some (rc1, im1) =>
        match RewriteFieldWithBeacon im1 past (str "QT_VERSION") pszVersion with
        | none => none
        | some (rc2, im2) =>
          if rc1 = Success ∨ rc2 = Success then some (Success, im2)
          else some (DataFailure, im2)
    else if strncmp pszVersion (str "5") nBytesMajor = 0 then
      match RewriteFieldWithBeacon im past (str "--version") pszVersion with
      | none => none
      | some (rc1, im1) =>
        match RewriteFieldWithBeacon im1 past (str "QMAKE_VERSION") pszVersion with
        | none => none
        | some (rc2, im2) =>
          match RewriteFieldWithBeacon im2 past (str ") (Qt ") pszVersion with
          | none => none
          | some (rc3, im3) =>
            if rc1 = Success ∨ rc2 = Success ∨ rc3 = Success then some (Success, im3)
            else some (DataFailure, im3)
    else some (BadConfig, im)

/-- The leader search of `RewriteVariable`: `memmem` from the cached `Offset`,
and, when that finds nothing and `Offset` is not zero, `memmem` over the whole
image.  The length `Size - Offset` is exact for `Offset ≤ Size`. -/
def RewriteVariable.find (im : ImageInfo_t) (leader : List Nat) : Option Nat :=
  match memmem im.Data im.Offset (im.Size - im.Offset) leader with
  | some pcFound => some pcFound
  | none => if im.Offset ≠ 0 then memmem im.Data 0 im.Size leader else none

/-- Function `RewriteVariable`: finds the leader `name=` of the pair (`=` is
code 61), lowers the cached `Offset` to the 64 KiB boundary below the match, and
rewrites the field with the whole pair, the area beginning at the leader and the
value right after it. -/
def RewriteVariable (im : ImageInfo_t) (past : Nat) (pszNameValuePair : List Nat) :
    RetCode_t × ImageInfo_t :=
  match strchr pszNameValuePair 61 with
  | none => (BadConfig, im)
  | some k =>
    let nBytesLeader := k + 1
    match RewriteVariable.find im (pszNameValuePair.take nBytesLeader) with
    | none => (DataFailure, im)
    | some pcFound =>
      let nBytesOffset := pcFound &&& (SIZE_MAX ^^^ 0xFFFF)
      let offset := if nBytesOffset < im.Offset ∨ im.Offset = 0 then nBytesOffset else im.Offset
      let r := RewriteField im.Data past pcFound (pcFound + nBytesLeader) im.Size
        (pszNameValuePair ++ [0])
      (r.1, { Data := r.2, Offset := offset })

/-! ## Predicates used to state the properties -/

/-- The index `e` is the position of the first NUL byte of `img` at or after `s`. -/
def FirstNul (img : List Nat) (s e : Nat) : Prop :=
  s ≤ e ∧ img[e]? = some 0 ∧ ∀ j, s ≤ j → j < e → img[j]? ≠ some 0

/-- The index `e` is the position of the first non-zero byte of `img` at or after `s`. -/
def FirstNonZero (img : List Nat) (s e : Nat) : Prop :=
  s ≤ e ∧ e < img.length ∧ img[e]? ≠ some 0 ∧ ∀ j, s ≤ j → j < e → img[j]? = some 0

instance (img : List Nat) (s e : Nat) : Decidable (FirstNul img s e) := by
  unfold FirstNul; infer_instance

instance (img : List Nat) (s e : Nat) : Decidable (FirstNonZero img s e) := by
  unfold FirstNonZero; infer_instance

/-- The byte sequence `needle` occurs in `img` at index `p`, wholly inside the image. -/
def Occurs (img needle : List Nat) (p : Nat) : Prop := needle <+: img.drop p

instance (img needle : List Nat) (p : Nat) : Decidable (Occurs img needle p) := by
  unfold Occurs; infer_instance

/-- The sequence `beacon + NUL` occurs in `img` at index `p` and is immediately
followed, inside the image, by a printable byte. -/
def Qualifies (img beacon : List Nat) (p : Nat) : Prop :=
  Occurs img (beacon ++ [0]) p ∧ p + (beacon.length + 1) < img.length ∧
    isprint (img.getD (p + (beacon.length + 1)) 0) = true

instance (img beacon : List Nat) (p : Nat) : Decidable (Qualifies img beacon p) := by
  unfold Qualifies; infer_instance

/-- The major component of a version string: the text before the first `.`, or
the whole string when it has no `.`. -/
def major (version : List Nat) : List Nat := version.takeWhile (· ≠ 46)

/-! ## Boundary resolution, instrumented scan and the patch run -/

/-- The boundary resolution of `RewriteField` (everything before the fit check):
the position of the terminator of the value and of the first non-zero byte
after its zero padding, or `none` when one of the four `DataFailure` exits of
that part is taken. -/
def RewriteField.resolve (img : List Nat) (past : Nat)
    (pvFieldAreaBeginning pvFieldValueBeginning pvDataEnd : Nat) : Option (Nat × Nat) :=
  match memchr img pvFieldValueBeginning 0 (pvDataEnd - pvFieldValueBeginning) with
  | none => none
  | some pcFoundEnd =>
    if sizeDiff pcFoundEnd pvFieldAreaBeginning > FIELD_RESERVED_AREA_LIMIT then none
    else
      let pcFoundEnd2 := FindNonZeroByte img past (pcFoundEnd + 1) pvDataEnd
      if pcFoundEnd2 ≥ pvDataEnd then none
      else if sizeDiff pcFoundEnd2 pvFieldAreaBeginning > FIELD_RESERVED_AREA_LIMIT then none
      else some (pcFoundEnd, pcFoundEnd2)

/-- The loop of `FindNonZeroByte` once more, returning next to the position
found the list of the indices at which `*pcCur` was read, in the order of the
reads. -/
def FindNonZeroByte.goReads (img : List Nat) (past pvEnd : Nat) : Nat → Nat → Nat × List Nat
  | 0, pcCur => (pcCur, [])
  | fuel + 1, pcCur =>
    if peek img past pcCur = 0 ∧ pcCur < pvEnd then
      ((FindNonZeroByte.goReads img past pvEnd fuel (pcCur + 1)).1,
        pcCur :: (FindNonZeroByte.goReads img past pvEnd fuel (pcCur + 1)).2)
    else (pcCur, [pcCur])

/-- Function `FindNonZeroByte` with the list of the indices it reads. -/
def FindNonZeroByte.reads (img : List Nat) (past pvBegin pvEnd : Nat) : Nat × List Nat :=
  FindNonZeroByte.goReads img past pvEnd (pvEnd + 1 - pvBegin) pvBegin

/-- The indices read by the call of `FindNonZeroByte` that `RewriteField` makes
(none when `RewriteField` returns before that call). -/
def RewriteField.padReads (img : List Nat) (past : Nat)
    (pvFieldAreaBeginning pvFieldValueBeginning pvDataEnd : Nat) : List Nat :=
  match memchr img pvFieldValueBeginning 0 (pvDataEnd - pvFieldValueBeginning) with
  | none => []
  | some pcFoundEnd =>
    if sizeDiff pcFoundEnd pvFieldAreaBeginning > FIELD_RESERVED_AREA_LIMIT then []
    else (FindNonZeroByte.reads img past (pcFoundEnd + 1) pvDataEnd).2

/-- The loop of `RewriteFieldWithBeacon` once more, returning next to the exit
of the loop the list of the indices at which `isprint(*pcFoundBeginning)` read a
byte, in the order of the reads. -/
def RewriteFieldWithBeacon.scanReads (img : List Nat) (past : Nat) (needle : List Nat) :
    Nat → Nat → Nat → Option (Option Nat × List Nat)
  | 0, _, _ => none
  | fuel + 1, pvDataBeginning, nDataBytes =>
    if nDataBytes = 0 then some (none, [])
    else
      match memmem img pvDataBeginning nDataBytes needle with
      | none => some (none, [])
      | some pcFound =>
        let pcFoundBeginning := pcFound + needle.length
        if isprint (peek img past pcFoundBeginning) then
          some (some pcFoundBeginning, [pcFoundBeginning])
        else
          (RewriteFieldWithBeacon.scanReads img past needle fuel pcFoundBeginning
            (nDataBytes - (pcFoundBeginning - pvDataBeginning))).map
            (fun r => (r.1, pcFoundBeginning :: r.2))

/-- The outcome of each library call on the file (`true`: the call succeeds),
and the bytes left in the file when the write-back fails after the file has
been opened for writing. -/
structure FileOps where
  fopenRead : Bool
  fseek : Bool
  ftell : Bool
  malloc : Bool
  fread : Bool
  fopenWrite : Bool
  fwrite : Bool
  fclose : Bool
  leftover : List Nat

/-- Function `ReadImage`: loads the whole file; an empty file and a file larger
than `SIZE_MAX >> 1` are refused (a failed `ftell` returns `-1`, which the size
comparison refuses too).  Returns the code and, on `Success`, the image, whose
`Offset` is the `0` set by `PatchQmakeExe`. -/
def ReadImage (io : FileOps) (file : List Nat) : RetCode_t × ImageInfo_t :=
  if ¬ io.fopenRead then (FileFailure, ⟨[], 0⟩)
  else if ¬ io.fseek then (FileFailure, ⟨[], 0⟩)
  else if ¬ io.ftell then (FileFailure, ⟨[], 0⟩)
  else if file.length = 0 then (FileFailure, ⟨[], 0⟩)
  else if file.length > SIZE_MAX >>> 1 then (FileFailure, ⟨[], 0⟩)
  else if ¬ io.malloc then (GenericFailure, ⟨[], 0⟩)
  else if ¬ io.fread then (FileFailure, ⟨[], 0⟩)
  else (Success, ⟨file, 0⟩)

/-- Function `WriteImage`: overwrites the file with the `Size` bytes of the
image.  Returns the code and the bytes of the file afterwards.  When `fclose`
fails, the diagnostic passes `Size` for `%s` and the file name for `%zu`, which
is not defined by C: that path does not return (`none`). -/
def WriteImage (io : FileOps) (im : ImageInfo_t) (file : List Nat) :
    Option (RetCode_t × List Nat) :=
  if ¬ io.fopenWrite then some (FileFailure, file)
  else if ¬ io.fwrite then some (FileFailure, io.leftover)
  else if ¬ io.fclose then none
  else some (Success, im.Data)

/-- The `for` loop of `PatchQmakeExe` over the variable specs: stops at the
first `RewriteVariable` that does not return `Success`.  Returns the code, the
image, and the list of the specs on which `RewriteVariable` was called, in the
order of the calls. -/
def PatchQmakeExe.vars (past : Nat) :
    ImageInfo_t → List (List Nat) → RetCode_t × ImageInfo_t × List (List Nat)
  | im, [] => (Success, im, [])
  | im, spec :: rest =>
    if (RewriteVariable im past spec).1 ≠ Success then
      ((RewriteVariable im past spec).1, (RewriteVariable im past spec).2, [spec])
    else
      ((PatchQmakeExe.vars past (RewriteVariable im past spec).2 rest).1,
        (PatchQmakeExe.vars past (RewriteVariable im past spec).2 rest).2.1,
        spec :: (PatchQmakeExe.vars past (RewriteVariable im past spec).2 rest).2.2)

/-- What a run of `PatchQmakeExe` that returns has done: the code returned, the
bytes of the file afterwards, the variable specs on which `RewriteVariable` was
called, and whether `WriteImage` was called. -/
structure PatchRun where
  code : RetCode_t
  file : List Nat
  attempted : List (List Nat)
  writeBack : Bool
  deriving DecidableEq

/-- Function `PatchQmakeExe`: read, version, variables in argument order, write
back.  `none` when the run does not return. -/
def PatchQmakeExe (io : FileOps) (past : Nat) (file pszVersion : List Nat)
    (apszVarSpecs : List (List Nat)) : Option PatchRun :=
  if (ReadImage io file).1 ≠ Success then some ⟨(ReadImage io file).1, file, [], false⟩
  else
    match RewriteVersion (ReadImage io file).2 past pszVersion with
    | none => none
    | some (rcVersion, im1) =>
      if rcVersion ≠ Success then some ⟨rcVersion, file, [], false⟩
      else if (PatchQmakeExe.vars past im1 apszVarSpecs).1 ≠ Success then
        some ⟨(PatchQmakeExe.vars past im1 apszVarSpecs).1, file,
          (PatchQmakeExe.vars past im1 apszVarSpecs).2.2, false⟩
      else
        match WriteImage io (PatchQmakeExe.vars past im1 apszVarSpecs).2.1 file with
        | none => none
        | some (rcWrite, written) =>
          some ⟨rcWrite, written, (PatchQmakeExe.vars past im1 apszVarSpecs).2.2, true⟩

/-- The image after `RewriteVariable` has been called on each pair of the list
in turn, whatever codes the calls returned. -/
def afterVariables (past : Nat) (im : ImageInfo_t) (specs : List (List Nat)) : ImageInfo_t :=
  specs.foldl (fun st spec => (RewriteVariable st past spec).2) im

/-! ## Library searches -/

theorem memchr_go_eq_some (c : Nat) (l : List Nat) (k : Nat) :
    memchr.go c l = some k ↔ l[k]? = some c ∧ ∀ j, j < k → l[j]? ≠ some c := by
  induction l generalizing k with
  | nil => simp [memchr.go]
  | cons b t ih =>
    by_cases hb : b = c
    · subst hb
      cases k with
      | zero => simp [memchr.go]
      | succ k =>
        simp only [memchr.go, if_true, Option.some.injEq]
        constructor
        · intro h; omega
        · intro h; exact (h.2 0 (Nat.succ_pos k) (by simp)).elim
    · cases k with
      | zero =>
        simp only [memchr.go, if_neg hb, Option.map_eq_some']
        constructor
        · rintro ⟨a, _, h⟩; omega
        · intro h; simp at h; exact absurd h hb
      | succ k =>
        simp only [memchr.go, if_neg hb, Option.map_eq_some', Nat.add_right_cancel_iff,
          exists_eq_right, ih, List.getElem?_cons_succ]
        constructor
        · rintro ⟨h1, h2⟩
          refine ⟨h1, ?_⟩
          intro j hj
          cases j with
          | zero => simpa using hb
          | succ j => simpa using h2 j (by omega)
        · rintro ⟨h1, h2⟩
          refine ⟨h1, ?_⟩
          intro j hj
          simpa using h2 (j + 1) (by omega)

theorem memchr_go_eq_none (c : Nat) (l : List Nat) :
    memchr.go c l = none ↔ ∀ j : Nat, l[j]? ≠ some c := by
  induction l with
  | nil => simp [memchr.go]
  | cons b t ih =>
    by_cases hb : b = c
    · subst hb
      simp only [memchr.go, if_true]
      constructor
      · intro h; simp at h
      · intro h; exact (h 0 (List.getElem?_cons_zero)).elim
    · simp only [memchr.go, if_neg hb, Option.map_eq_none', ih]
      constructor
      · intro h j
        cases j with
        | zero => simpa using hb
        | succ j => simpa using h j
      · intro h j
        simpa using h (j + 1)

theorem drop_take_to_end (img : List Nat) (s : Nat) :
    (img.drop s).take (img.length - s) = img.drop s := by
  apply List.take_of_length_le
  simp

theorem memchr_eq_some (img : List Nat) (s c p : Nat) :
    memchr img s c (img.length - s) = some p ↔
      s ≤ p ∧ img[p]? = some c ∧ ∀ j, s ≤ j → j < p → img[j]? ≠ some c := by
  unfold memchr
  rw [drop_take_to_end, Option.map_eq_some']
  constructor
  · rintro ⟨k, hk, rfl⟩
    rw [memchr_go_eq_some] at hk
    refine ⟨Nat.le_add_right s k, by simpa [List.getElem?_drop] using hk.1, ?_⟩
    intro j h1 h2
    have := hk.2 (j - s) (by omega)
    rw [List.getElem?_drop] at this
    rwa [show s + (j - s) = j by omega] at this
  · rintro ⟨h1, h2, h3⟩
    refine ⟨p - s, ?_, by omega⟩
    rw [memchr_go_eq_some]
    refine ⟨?_, ?_⟩
    · rw [List.getElem?_drop, show s + (p - s) = p by omega]; exact h2
    · intro j hj
      rw [List.getElem?_drop]
      exact h3 (s + j) (by omega) (by omega)

theorem memchr_eq_none (img : List Nat) (s c : Nat) :
    memchr img s c (img.length - s) = none ↔ ∀ j, s ≤ j → img[j]? ≠ some c := by
  unfold memchr
  rw [drop_take_to_end, Option.map_eq_none', memchr_go_eq_none]
  constructor
  · intro h j hj
    have := h (j - s)
    rw [List.getElem?_drop] at this
    rwa [show s + (j - s) = j by omega] at this
  · intro h j
    rw [List.getElem?_drop]
    exact h (s + j) (by omega)

theorem memmem_go_eq_some (needle l : List Nat) (k : Nat) :
    memmem.go needle l = some k ↔
      needle <+: l.drop k ∧ ∀ j, j < k → ¬ needle <+: l.drop j := by
  induction l generalizing k with
  | nil =>
    by_cases hn : needle = []
    · subst hn
      simp only [memmem.go, if_true, Option.some.injEq, List.drop_nil, List.nil_prefix,
        not_true_eq_false, true_and]
      constructor
      · intro h j hj; omega
      · intro h
        cases k with
        | zero => rfl
        | succ k => exact (h 0 (Nat.succ_pos k)).elim
    · simp [memmem.go, hn]
  | cons b t ih =>
    by_cases hp : needle <+: b :: t
    · simp only [memmem.go, if_pos hp, Option.some.injEq]
      constructor
      · intro h
        subst h
        exact ⟨by simpa using hp, fun j hj => by omega⟩
      · intro h
        cases k with
        | zero => rfl
        | succ k => exact (h.2 0 (Nat.succ_pos k) (by simpa using hp)).elim
    · simp only [memmem.go, if_neg hp, Option.map_eq_some']
      cases k with
      | zero =>
        constructor
        · rintro ⟨a, _, h⟩; omega
        · intro h; exact absurd (by simpa using h.1) hp
      | succ k =>
        simp only [Nat.add_right_cancel_iff, exists_eq_right, ih, List.drop_succ_cons]
        constructor
        · rintro ⟨h1, h2⟩
          refine ⟨h1, ?_⟩
          intro j hj
          cases j with
          | zero => simpa using hp
          | succ j => simpa using h2 j (by omega)
        · rintro ⟨h1, h2⟩
          refine ⟨h1, ?_⟩
          intro j hj
          simpa using h2 (j + 1) (by omega)

theorem memmem_go_eq_none (needle l : List Nat) :
    memmem.go needle l = none ↔ ∀ j : Nat, ¬ needle <+: l.drop j := by
  induction l with
  | nil =>
    by_cases hn : needle = []
    · subst hn; simp [memmem.go]
    · simp [memmem.go, hn]
  | cons b t ih =>
    by_cases hp : needle <+: b :: t
    · simp only [memmem.go, if_pos hp]
      constructor
      · intro h; simp at h
      · intro h; exact (h 0 (by simpa using hp)).elim
    · simp only [memmem.go, if_neg hp, Option.map_eq_none', ih]
      constructor
      · intro h j
        cases j with
        | zero => simpa using hp
        | succ j => simpa using h j
      · intro h j
        simpa using h (j + 1)

/-- Library `memmem` over the window from `s` to the image end returns the first
occurrence at or after `s`. -/
theorem memmem_eq_some (img : List Nat) (s : Nat) (needle : List Nat) (p : Nat) :
    memmem img s (img.length - s) needle = some p ↔
      s ≤ p ∧ Occurs img needle p ∧ ∀ j, s ≤ j → j < p → ¬ Occurs img needle j := by
  unfold memmem Occurs
  rw [drop_take_to_end, Option.map_eq_some']
  constructor
  · rintro ⟨k, hk, rfl⟩
    rw [memmem_go_eq_some] at hk
    refine ⟨Nat.le_add_right s k, by simpa [List.drop_drop] using hk.1, ?_⟩
    intro j h1 h2
    have := hk.2 (j - s) (by omega)
    rw [List.drop_drop] at this
    rwa [show s + (j - s) = j by omega] at this
  · rintro ⟨h1, h2, h3⟩
    refine ⟨p - s, ?_, by omega⟩
    rw [memmem_go_eq_some]
    refine ⟨?_, ?_⟩
    · rw [List.drop_drop, show s + (p - s) = p by omega]; exact h2
    · intro j hj
      rw [List.drop_drop]
      exact h3 (s + j) (by omega) (by omega)

theorem memmem_eq_none (img : List Nat) (s : Nat) (needle : List Nat) :
    memmem img s (img.length - s) needle = none ↔ ∀ j, s ≤ j → ¬ Occurs img needle j := by
  unfold memmem Occurs
  rw [drop_take_to_end, Option.map_eq_none', memmem_go_eq_none]
  constructor
  · intro h j hj
    have := h (j - s)
    rw [List.drop_drop] at this
    rwa [show s + (j - s) = j by omega] at this
  · intro h j
    rw [List.drop_drop]
    exact h (s + j) (by omega)

theorem Occurs_getElem? {img needle : List Nat} {p : Nat} (h : Occurs img needle p)
    (j : Nat) (hj : j < needle.length) : img[p + j]? = needle[j]? := by
  obtain ⟨t, ht⟩ := h
  rw [← List.getElem?_drop, ← ht, List.getElem?_append_left hj]

theorem Occurs_le_length {img needle : List Nat} {p : Nat} (h : Occurs img needle p)
    (hn : needle ≠ []) : p + needle.length ≤ img.length := by
  have h1 := h.length_le
  rw [List.length_drop] at h1
  have h2 : 0 < needle.length := List.length_pos.mpr hn
  omega

/-- Two occurrences of a NUL-free string followed by its terminator never overlap. -/
theorem Occurs_no_overlap {img beacon : List Nat} {q p : Nat} (hb : 0 ∉ beacon)
    (hq : Occurs img (beacon ++ [0]) q) (hp : Occurs img (beacon ++ [0]) p) (hlt : q < p) :
    q + (beacon.length + 1) ≤ p := by
  by_contra hcon
  have h1 := Occurs_getElem? hq beacon.length (by simp)
  have h2 := Occurs_getElem? hp (q + beacon.length - p) (by simp; omega)
  rw [show p + (q + beacon.length - p) = q + beacon.length by omega, h1] at h2
  rw [List.getElem?_append_right (Nat.le_refl _), Nat.sub_self,
    List.getElem?_append_left (by omega)] at h2
  have h3 : (0 : Nat) ∈ beacon := by
    rw [List.mem_iff_getElem?]
    exact ⟨_, h2.symm⟩
  exact hb h3

theorem peek_eq_getD (img : List Nat) (past i : Nat) (h : i < img.length) :
    peek img past i = img.getD i 0 := by
  simp [peek, List.getElem?_eq_getElem h]

/-! ## The field rewriter -/

theorem peek_of_lt (img : List Nat) (past i : Nat) (h : i < img.length) :
    img[i]? = some (peek img past i) := by
  simp [peek, List.getElem?_eq_getElem h]

theorem memchr_eq_some_iff_firstNul (img : List Nat) (s p : Nat) :
    memchr img s 0 (img.length - s) = some p ↔ FirstNul img s p :=
  memchr_eq_some img s 0 p

theorem FirstNul_lt_length {img : List Nat} {s e : Nat} (h : FirstNul img s e) :
    e < img.length := by
  have := h.2.1
  rw [List.getElem?_eq_some] at this
  exact this.1

theorem FirstNul_unique {img : List Nat} {s e e' : Nat} (h : FirstNul img s e)
    (h' : FirstNul img s e') : e = e' := by
  rcases Nat.lt_trichotomy e e' with hlt | heq | hgt
  · exact absurd h.2.1 (h'.2.2 e h.1 hlt)
  · exact heq
  · exact absurd h'.2.1 (h.2.2 e' h'.1 hgt)

theorem FirstNonZero_unique {img : List Nat} {s e e' : Nat} (h : FirstNonZero img s e)
    (h' : FirstNonZero img s e') : e = e' := by
  rcases Nat.lt_trichotomy e e' with hlt | heq | hgt
  · exact absurd (h'.2.2.2 e h.1 hlt) h.2.2.1
  · exact heq
  · exact absurd (h.2.2.2 e' h'.1 hgt) h'.2.2.1

theorem FindNonZeroByte_go_spec (img : List Nat) (past e : Nat) (he : e ≤ img.length) :
    ∀ fuel cur, cur ≤ e → e < cur + fuel →
      cur ≤ FindNonZeroByte.go img past e fuel cur ∧
      FindNonZeroByte.go img past e fuel cur ≤ e ∧
      (∀ j, cur ≤ j → j < FindNonZeroByte.go img past e fuel cur → img[j]? = some 0) ∧
      (FindNonZeroByte.go img past e fuel cur < e →
        img[FindNonZeroByte.go img past e fuel cur]? ≠ some 0) := by
  intro fuel
  induction fuel with
  | zero => intro cur h1 h2; omega
  | succ fuel ih =>
    intro cur h1 h2
    by_cases hc : peek img past cur = 0 ∧ cur < e
    · have hstep : FindNonZeroByte.go img past e (fuel + 1) cur =
          FindNonZeroByte.go img past e fuel (cur + 1) := by
        simp only [FindNonZeroByte.go, if_pos hc]
      rw [hstep]
      obtain ⟨i1, i2, i3, i4⟩ := ih (cur + 1) (by omega) (by omega)
      refine ⟨by omega, i2, ?_, i4⟩
      intro j hj1 hj2
      by_cases hj : j = cur
      · subst hj
        rw [peek_of_lt img past j (by omega), hc.1]
      · exact i3 j (by omega) hj2
    · have hstep : FindNonZeroByte.go img past e (fuel + 1) cur = cur := by
        simp only [FindNonZeroByte.go, if_neg hc]
      rw [hstep]
      refine ⟨Nat.le_refl _, h1, ?_, ?_⟩
      · intro j hj1 hj2; omega
      · intro hlt hz
        rw [peek_of_lt img past cur (by omega)] at hz
        exact hc ⟨by simpa using hz, hlt⟩

/-- The scan for the end of the zero padding either stops at the first non-zero
byte inside the image, or reaches the image end over zero bytes only. -/
theorem FindNonZeroByte_spec (img : List Nat) (past s : Nat) (hs : s ≤ img.length) :
    (FindNonZeroByte img past s img.length < img.length ∧
        FirstNonZero img s (FindNonZeroByte img past s img.length)) ∨
    (FindNonZeroByte img past s img.length = img.length ∧
        ∀ j, s ≤ j → j < img.length → img[j]? = some 0) := by
  obtain ⟨h1, h2, h3, h4⟩ :=
    FindNonZeroByte_go_spec img past img.length (Nat.le_refl _) (img.length + 1 - s) s hs
      (by omega)
  change s ≤ FindNonZeroByte img past s img.length at h1
  change FindNonZeroByte img past s img.length ≤ img.length at h2
  change ∀ j, s ≤ j → j < FindNonZeroByte img past s img.length → img[j]? = some 0 at h3
  change FindNonZeroByte img past s img.length < img.length →
    img[FindNonZeroByte img past s img.length]? ≠ some 0 at h4
  by_cases hlt : FindNonZeroByte img past s img.length < img.length
  · exact Or.inl ⟨hlt, h1, hlt, h4 hlt, h3⟩
  · have heq : FindNonZeroByte img past s img.length = img.length := by omega
    refine Or.inr ⟨heq, ?_⟩
    intro j hj1 hj2
    exact h3 j hj1 (by omega)

theorem length_memcpy (img : List Nat) (dst : Nat) (src : List Nat)
    (h : dst + src.length ≤ img.length) : (memcpy img dst src).length = img.length := by
  simp [memcpy]; omega

theorem length_memset (img : List Nat) (dst c n : Nat)
    (h : dst + n ≤ img.length) : (memset img dst c n).length = img.length := by
  simp [memset]; omega

theorem getElem?_memcpy (img : List Nat) (dst : Nat) (src : List Nat) (i : Nat)
    (h : dst + src.length ≤ img.length) :
    (memcpy img dst src)[i]? =
      if dst ≤ i ∧ i < dst + src.length then src[i - dst]? else img[i]? := by
  unfold memcpy
  by_cases h1 : i < dst
  · rw [if_neg (by omega), List.append_assoc, List.getElem?_append_left (by simp; omega),
      List.getElem?_take_of_lt h1]
  · have hl : (List.take dst img).length = dst := by simp; omega
    by_cases h2 : i < dst + src.length
    · rw [if_pos (by omega), List.append_assoc, List.getElem?_append_right (by omega), hl,
        List.getElem?_append_left (by omega)]
    · rw [if_neg (by omega), List.getElem?_append_right (by simp; omega),
        List.getElem?_drop]
      congr 1
      simp; omega

theorem getElem?_memset (img : List Nat) (dst c n i : Nat) (h : dst + n ≤ img.length) :
    (memset img dst c n)[i]? = if dst ≤ i ∧ i < dst + n then some c else img[i]? := by
  unfold memset
  by_cases h1 : i < dst
  · rw [if_neg (by omega), List.append_assoc, List.getElem?_append_left (by simp; omega),
      List.getElem?_take_of_lt h1]
  · have hl : (List.take dst img).length = dst := by simp; omega
    by_cases h2 : i < dst + n
    · rw [if_pos (by omega), List.append_assoc, List.getElem?_append_right (by omega), hl,
        List.getElem?_append_left (by simp; omega),
        List.getElem?_replicate_of_lt (by omega)]
    · rw [if_neg (by omega), List.getElem?_append_right (by simp; omega),
        List.getElem?_drop]
      congr 1
      simp; omega

theorem sizeDiff_of_le {a b : Nat} (h : b ≤ a) : sizeDiff a b = a - b := by
  simp [sizeDiff, h]

/-- The buffer after the copy and the zero fill of `RewriteField`, byte by byte. -/
theorem getElem?_written (img : List Nat) (a r : Nat) (repl : List Nat) (i : Nat)
    (hr : a + r ≤ img.length) (hn : repl.length ≤ r) :
    (memset (memcpy img a repl) (a + repl.length) 0 (r - repl.length))[i]? =
      if i < a then img[i]?
      else if i < a + repl.length then repl[i - a]?
      else if i < a + r then some 0
      else img[i]? := by
  have hc : a + repl.length ≤ img.length := by omega
  rw [getElem?_memset _ _ _ _ _ (by rw [length_memcpy _ _ _ hc]; omega),
    getElem?_memcpy _ _ _ _ hc]
  by_cases h1 : i < a
  · rw [if_neg (by omega), if_neg (by omega), if_pos h1]
  · by_cases h2 : i < a + repl.length
    · rw [if_neg (by omega), if_pos (by omega), if_neg h1, if_pos h2]
    · by_cases h3 : i < a + r
      · rw [if_pos (by omega), if_neg h1, if_neg h2, if_pos h3]
      · rw [if_neg (by omega), if_neg (by omega), if_neg h1, if_neg h2, if_neg h3]

theorem length_written (img : List Nat) (a r : Nat) (repl : List Nat)
    (hr : a + r ≤ img.length) (hn : repl.length ≤ r) :
    (memset (memcpy img a repl) (a + repl.length) 0 (r - repl.length)).length = img.length := by
  have hc : a + repl.length ≤ img.length := by omega
  rw [length_memset _ _ _ _ (by rw [length_memcpy _ _ _ hc]; omega), length_memcpy _ _ _ hc]

/-- When the boundaries of the field resolve, `RewriteField` succeeds exactly
when the reserved area is within the sanity limit and holds the replacement. -/
theorem RewriteField_resolved (img : List Nat) (past a v : Nat) (repl : List Nat)
    (ve ae : Nat) (hav : a ≤ v) (hv : FirstNul img v ve) (ha : FirstNonZero img (ve + 1) ae) :
    RewriteField img past a v img.length repl =
      if ae - a ≤ FIELD_RESERVED_AREA_LIMIT ∧ repl.length ≤ ae - a then
        (Success, memset (memcpy img a repl) (a + repl.length) 0 (ae - a - repl.length))
      else (DataFailure, img) := by
  have hm := (memchr_eq_some_iff_firstNul img v ve).mpr hv
  have hve := FirstNul_lt_length hv
  have hf : FindNonZeroByte img past (ve + 1) img.length = ae := by
    rcases FindNonZeroByte_spec img past (ve + 1) (by omega) with ⟨_, h⟩ | ⟨_, h⟩
    · exact FirstNonZero_unique h ha
    · exact absurd (h ae ha.1 ha.2.1) ha.2.2.1
  have h1 : v ≤ ve := hv.1
  have h2 : ve + 1 ≤ ae := ha.1
  have h3 : ae < img.length := ha.2.1
  unfold RewriteField
  simp only [hm, hf, sizeDiff_of_le (show a ≤ ve by omega), sizeDiff_of_le (show a ≤ ae by omega)]
  by_cases c1 : ve - a > FIELD_RESERVED_AREA_LIMIT
  · rw [if_pos c1, if_neg (by omega)]
  · rw [if_neg c1, if_neg (by omega)]
    by_cases c2 : ae - a > FIELD_RESERVED_AREA_LIMIT
    · rw [if_pos c2, if_neg (by omega)]
    · rw [if_neg c2]
      by_cases c3 : repl.length > ae - a
      · rw [if_pos c3, if_neg (by omega)]
      · rw [if_neg c3, if_pos (by omega)]

/-- When the boundaries of the field do not resolve, `RewriteField` fails and
leaves the image as it was. -/
theorem RewriteField_unresolved (img : List Nat) (past a v : Nat) (repl : List Nat)
    (h : ¬ ∃ ve ae, FirstNul img v ve ∧ FirstNonZero img (ve + 1) ae) :
    RewriteField img past a v img.length repl = (DataFailure, img) := by
  unfold RewriteField
  cases hm : memchr img v 0 (img.length - v) with
  | none => rfl
  | some ve =>
    have hv := (memchr_eq_some_iff_firstNul img v ve).mp hm
    have hve := FirstNul_lt_length hv
    simp only []
    split
    · rfl
    · rcases FindNonZeroByte_spec img past (ve + 1) (by omega) with ⟨_, hz⟩ | ⟨he, _⟩
      · exact absurd ⟨ve, _, hv, hz⟩ h
      · rw [if_pos (by omega)]

/-- Function `RewriteField` returns `Success` or `DataFailure`, and on `DataFailure` the
image is unchanged. -/
theorem RewriteField_codes (img : List Nat) (past a v e : Nat) (repl : List Nat) :
    (RewriteField img past a v e repl).1 = Success ∨
      RewriteField img past a v e repl = (DataFailure, img) := by
  unfold RewriteField
  cases memchr img v 0 (e - v) with
  | none => exact Or.inr rfl
  | some ve =>
    dsimp only
    split_ifs <;> first | exact Or.inl rfl | exact Or.inr rfl

/-- What a successful `RewriteField` did: the boundaries resolved, the reserved
area is within the limit and holds the replacement, and the new buffer is the
old one with the replacement copied in and the rest of the area zeroed. -/
theorem RewriteField_success_inv (img : List Nat) (past a v : Nat) (repl img' : List Nat)
    (hav : a ≤ v) (h : RewriteField img past a v img.length repl = (Success, img')) :
    ∃ ve ae, FirstNul img v ve ∧ FirstNonZero img (ve + 1) ae ∧
      ae - a ≤ FIELD_RESERVED_AREA_LIMIT ∧ repl.length ≤ ae - a ∧
      img' = memset (memcpy img a repl) (a + repl.length) 0 (ae - a - repl.length) := by
  by_cases hres : ∃ ve ae, FirstNul img v ve ∧ FirstNonZero img (ve + 1) ae
  · obtain ⟨ve, ae, h1, h2⟩ := hres
    rw [RewriteField_resolved img past a v repl ve ae hav h1 h2] at h
    split at h
    · next hc => exact ⟨ve, ae, h1, h2, hc.1, hc.2, (congrArg Prod.snd h).symm⟩
    · simp at h
  · rw [RewriteField_unresolved img past a v repl hres] at h
    simp at h

/-- Function `RewriteField` never changes a byte before the area beginning. -/
theorem RewriteField_before_area (img : List Nat) (past a v : Nat) (repl : List Nat) (hav : a ≤ v)
    (i : Nat) (hi : i < a) :
    (RewriteField img past a v img.length repl).2[i]? = img[i]? := by
  rcases RewriteField_codes img past a v img.length repl with h | h
  · obtain ⟨ve, ae, h1, h2, _, h4, h5⟩ :=
      RewriteField_success_inv img past a v repl (RewriteField img past a v img.length repl).2
        hav (Prod.ext h rfl)
    have hve : v ≤ ve := h1.1
    have hae : ve + 1 ≤ ae := h2.1
    have hlen : ae < img.length := h2.2.1
    rw [h5, getElem?_written img a (ae - a) repl i (by omega) h4, if_pos hi]
  · rw [h]

/-- Without a NUL byte from the value beginning to the image end, `RewriteField`
fails and leaves the image as it was. -/
theorem RewriteField_unterminated (img : List Nat) (past a v : Nat) (repl : List Nat)
    (h : ∀ j, v ≤ j → j < img.length → img[j]? ≠ some 0) :
    RewriteField img past a v img.length repl = (DataFailure, img) := by
  apply RewriteField_unresolved
  rintro ⟨ve, ae, hv, _⟩
  exact h ve hv.1 (FirstNul_lt_length hv) hv.2.1

/-! ## The beacon scan -/

/-- With more fuel than bytes left, the beacon scan ends by one of its own exits. -/
theorem scan_total (img : List Nat) (past : Nat) (needle : List Nat) (hn : needle ≠ []) :
    ∀ fuel b, b ≤ img.length → img.length - b < fuel →
      ∃ r, RewriteFieldWithBeacon.scan img past needle fuel b (img.length - b) = some r := by
  intro fuel
  induction fuel with
  | zero => intro b _ h; omega
  | succ fuel ih =>
    intro b hb hf
    unfold RewriteFieldWithBeacon.scan
    by_cases h0 : img.length - b = 0
    · exact ⟨none, by rw [if_pos h0]⟩
    · rw [if_neg h0]
      cases hm : memmem img b (img.length - b) needle with
      | none => exact ⟨none, rfl⟩
      | some q =>
        obtain ⟨hq1, hq2, _⟩ := (memmem_eq_some img b needle q).mp hm
        have hle := Occurs_le_length hq2 hn
        have hpos : 0 < needle.length := List.length_pos.mpr hn
        dsimp only
        by_cases hpr : isprint (peek img past (q + needle.length)) = true
        · exact ⟨some (q + needle.length), by rw [if_pos hpr]⟩
        · rw [if_neg hpr]
          have hnd : img.length - b - (q + needle.length - b) =
              img.length - (q + needle.length) := by omega
          rw [hnd]
          exact ih (q + needle.length) hle (by omega)

/-- A position accepted by the beacon scan lies right after an occurrence of the
needle and holds (or, at the image end, is followed by) a printable byte. -/
theorem scan_accepts (img : List Nat) (past : Nat) (needle : List Nat) (hn : needle ≠ []) :
    ∀ fuel b r, b ≤ img.length →
      RewriteFieldWithBeacon.scan img past needle fuel b (img.length - b) = some (some r) →
      ∃ q, Occurs img needle q ∧ r = q + needle.length ∧ r ≤ img.length ∧
        isprint (peek img past r) = true := by
  intro fuel
  induction fuel with
  | zero => intro b r _ h; simp [RewriteFieldWithBeacon.scan] at h
  | succ fuel ih =>
    intro b r hb h
    unfold RewriteFieldWithBeacon.scan at h
    by_cases h0 : img.length - b = 0
    · rw [if_pos h0] at h; simp at h
    · rw [if_neg h0] at h
      cases hm : memmem img b (img.length - b) needle with
      | none => rw [hm] at h; simp at h
      | some q =>
        rw [hm] at h
        obtain ⟨hq1, hq2, _⟩ := (memmem_eq_some img b needle q).mp hm
        have hle := Occurs_le_length hq2 hn
        dsimp only at h
        by_cases hpr : isprint (peek img past (q + needle.length)) = true
        · rw [if_pos hpr] at h
          have hr : q + needle.length = r := by simpa using h
          subst hr
          exact ⟨q, hq2, rfl, hle, hpr⟩
        · rw [if_neg hpr] at h
          have hnd : img.length - b - (q + needle.length - b) =
              img.length - (q + needle.length) := by omega
          rw [hnd] at h
          exact ih (q + needle.length) r hle h

/-- The beacon scan stops right after the first occurrence of `beacon + NUL`
that is followed, inside the image, by a printable byte. -/
theorem scan_first (img : List Nat) (past : Nat) (beacon : List Nat) (p : Nat)
    (hb : 0 ∉ beacon) (hq : Qualifies img beacon p)
    (hfirst : ∀ q, q < p → ¬ Qualifies img beacon q) :
    ∀ fuel b, b ≤ p → img.length - b < fuel →
      RewriteFieldWithBeacon.scan img past (beacon ++ [0]) fuel b (img.length - b) =
        some (some (p + (beacon.length + 1))) := by
  have hlen : (beacon ++ [0]).length = beacon.length + 1 := by simp
  intro fuel
  induction fuel with
  | zero => intro b _ h; omega
  | succ fuel ih =>
    intro b hbp hf
    obtain ⟨ho, hin, hpr⟩ := hq
    unfold RewriteFieldWithBeacon.scan
    rw [if_neg (by omega)]
    cases hm : memmem img b (img.length - b) (beacon ++ [0]) with
    | none =>
      exact absurd ho ((memmem_eq_none img b (beacon ++ [0])).mp hm p hbp)
    | some q =>
      obtain ⟨hq1, hq2, hq3⟩ := (memmem_eq_some img b (beacon ++ [0]) q).mp hm
      have hqp : q ≤ p := by
        by_contra hcon
        exact hq3 p hbp (by omega) ho
      dsimp only
      rw [hlen]
      by_cases heq : q = p
      · subst heq
        rw [if_pos (by rw [peek_eq_getD img past _ hin]; exact hpr)]
      · have hlt : q < p := by omega
        have hno := Occurs_no_overlap hb hq2 ho hlt
        have hin' : q + (beacon.length + 1) < img.length := by omega
        have hnp : ¬ isprint (peek img past (q + (beacon.length + 1))) = true := by
          rw [peek_eq_getD img past _ hin']
          intro hc
          exact hfirst q hlt ⟨hq2, hin', hc⟩
        rw [if_neg hnp]
        have hnd : img.length - b - (q + (beacon.length + 1) - b) =
            img.length - (q + (beacon.length + 1)) := by omega
        rw [hnd]
        exact ih (q + (beacon.length + 1)) hno (by omega)

/-- Function `RewriteFieldWithBeacon` always returns: the scan never runs out of fuel. -/
theorem RewriteFieldWithBeacon_total (im : ImageInfo_t) (past : Nat) (beacon repl : List Nat) :
    ∃ rc data, RewriteFieldWithBeacon im past beacon repl = some (rc, { im with Data := data }) ∧
      ((rc = Success) ∨ (rc = DataFailure ∧ data = im.Data)) := by
  obtain ⟨r, hr⟩ := scan_total im.Data past (beacon ++ [0]) (by simp) (im.Data.length + 1) 0
    (Nat.zero_le _) (by omega)
  unfold RewriteFieldWithBeacon ImageInfo_t.Size
  rw [Nat.sub_zero] at hr
  rw [hr]
  cases r with
  | none => exact ⟨DataFailure, im.Data, rfl, Or.inr ⟨rfl, rfl⟩⟩
  | some q =>
    dsimp only
    refine ⟨_, _, rfl, ?_⟩
    rcases RewriteField_codes im.Data past q q im.Data.length (repl ++ [0]) with h | h
    · exact Or.inl h
    · exact Or.inr ⟨congrArg Prod.fst h, congrArg Prod.snd h⟩

/-! ## The leader search and the version dispatch -/

theorem strchr_leader (name value : List Nat) (c : Nat) (hc : c ∉ name) (h0 : 0 ∉ name) :
    strchr (name ++ [c] ++ value) c = some name.length := by
  induction name with
  | nil => simp [strchr]
  | cons b t ih =>
    have hb : b ≠ c := fun h => hc (by simp [h])
    have hz : b ≠ 0 := fun h => h0 (by simp [h])
    have ht := ih (fun h => hc (List.mem_cons_of_mem _ h)) (fun h => h0 (List.mem_cons_of_mem _ h))
    simp only [List.cons_append, strchr, if_neg hb, if_neg hz, List.length_cons]
    show Option.map (fun x => x + 1) (strchr (t ++ [c] ++ value) c) = some (t.length + 1)
    rw [ht]
    rfl

theorem take_leader (name value : List Nat) (c : Nat) :
    (name ++ [c] ++ value).take (name.length + 1) = name ++ [c] := by
  have h : name.length + 1 = (name ++ [c]).length := by simp
  rw [h, List.take_left']
  rfl

theorem memmem_zero (img needle : List Nat) :
    memmem img 0 img.length needle = memmem img 0 (img.length - 0) needle := by
  rw [Nat.sub_zero]

/-- The leader search returns the first occurrence at or after the cached
offset when there is one. -/
theorem find_of_after (im : ImageInfo_t) (leader : List Nat) (p : Nat)
    (h1 : im.Offset ≤ p) (h2 : Occurs im.Data leader p)
    (h3 : ∀ q, im.Offset ≤ q → q < p → ¬ Occurs im.Data leader q) :
    RewriteVariable.find im leader = some p := by
  unfold RewriteVariable.find ImageInfo_t.Size
  rw [(memmem_eq_some im.Data im.Offset leader p).mpr ⟨h1, h2, h3⟩]

/-- The leader search returns the first occurrence in the whole image when
there is none at or after the cached offset. -/
theorem find_of_before (im : ImageInfo_t) (leader : List Nat) (p : Nat)
    (h1 : ∀ q, im.Offset ≤ q → ¬ Occurs im.Data leader q) (h2 : Occurs im.Data leader p)
    (h3 : ∀ q, q < p → ¬ Occurs im.Data leader q) :
    RewriteVariable.find im leader = some p := by
  unfold RewriteVariable.find ImageInfo_t.Size
  rw [(memmem_eq_none im.Data im.Offset leader).mpr h1]
  have hoff : im.Offset ≠ 0 := by
    intro h
    exact h1 p (by omega) h2
  dsimp only
  rw [if_pos hoff, memmem_zero,
    (memmem_eq_some im.Data 0 leader p).mpr ⟨Nat.zero_le _, h2, fun q _ hq => h3 q hq⟩]

/-- The leader search finds nothing exactly when the leader occurs nowhere. -/
theorem find_eq_none (im : ImageInfo_t) (leader : List Nat) :
    RewriteVariable.find im leader = none ↔ ∀ q, ¬ Occurs im.Data leader q := by
  unfold RewriteVariable.find ImageInfo_t.Size
  constructor
  · intro h q
    cases hm : memmem im.Data im.Offset (im.Data.length - im.Offset) leader with
    | some r => rw [hm] at h; simp at h
    | none =>
      rw [hm] at h
      dsimp only at h
      by_cases hoff : im.Offset = 0
      · rw [hoff] at hm
        exact (memmem_eq_none im.Data 0 leader).mp hm q (Nat.zero_le _)
      · rw [if_pos hoff, memmem_zero] at h
        exact (memmem_eq_none im.Data 0 leader).mp h q (Nat.zero_le _)
  · intro h
    rw [(memmem_eq_none im.Data im.Offset leader).mpr (fun q _ => h q), memmem_zero,
      (memmem_eq_none im.Data 0 leader).mpr (fun q _ => h q)]
    simp

/-- Function `RewriteVariable` on a pair `name=value`, after the split at the first `=`. -/
theorem RewriteVariable_pair (im : ImageInfo_t) (past : Nat) (name value : List Nat)
    (hn : 61 ∉ name) (h0 : 0 ∉ name) :
    RewriteVariable im past (name ++ [61] ++ value) =
      match RewriteVariable.find im (name ++ [61]) with
      | none => (DataFailure, im)
      | some p =>
        ((RewriteField im.Data past p (p + (name.length + 1)) im.Size
            (name ++ [61] ++ value ++ [0])).1,
          { Data := (RewriteField im.Data past p (p + (name.length + 1)) im.Size
              (name ++ [61] ++ value ++ [0])).2,
            Offset := if p &&& (SIZE_MAX ^^^ 0xFFFF) < im.Offset ∨ im.Offset = 0 then
              p &&& (SIZE_MAX ^^^ 0xFFFF) else im.Offset }) := by
  unfold RewriteVariable
  rw [strchr_leader name value 61 hn h0]
  dsimp only
  rw [take_leader]

theorem strchrnul_major (ver : List Nat) (h0 : 0 ∉ ver) :
    strchrnul ver 46 = (major ver).length := by
  induction ver with
  | nil => rfl
  | cons b t ih =>
    have hz : b ≠ 0 := fun h => h0 (by simp [h])
    have ht := ih (fun h => h0 (List.mem_cons_of_mem _ h))
    unfold major at ht ⊢
    by_cases hb : b = 46
    · simp [strchrnul, hb]
    · simp [strchrnul, hb, hz, List.takeWhile_cons, ht]

/-- Comparing the major component with a one-character string: `strncmp` over
the length of the major component yields zero exactly when the major component
is empty (nothing is compared) or is that one character. -/
theorem strncmp_major (ver : List Nat) (c : Nat) (h0 : 0 ∉ ver) (hc : c ≠ 0) :
    strncmp ver [c] (major ver).length = 0 ↔ major ver = [] ∨ major ver = [c] := by
  cases ver with
  | nil => simp [major, strncmp]
  | cons x t =>
    have hx : x ≠ 0 := fun h => h0 (by simp [h])
    by_cases hx46 : x = 46
    · simp [major, hx46, strncmp]
    · have hm : major (x :: t) = x :: major t := by
        simp [major, List.takeWhile_cons, hx46]
      rw [hm]
      by_cases hxc : x = c
      · subst hxc
        cases t with
        | nil => simp [major, strncmp, hx]
        | cons y t' =>
          have hy : y ≠ 0 := fun h => h0 (by simp [h])
          by_cases hy46 : y = 46
          · simp [major, hy46, strncmp, hx]
          · have hm' : major (y :: t') = y :: major t' := by
              simp [major, List.takeWhile_cons, hy46]
            rw [hm']
            simp [strncmp, hx, hy]
      · have hsub : (x : Int) - (c : Int) ≠ 0 := by
          intro h
          exact hxc (by omega)
        simp [strncmp, hxc, hsub]

/-! ## The cached offset -/

theorem mask_testBit (i : Nat) :
    (SIZE_MAX ^^^ 0xFFFF).testBit i = (decide (16 ≤ i) && decide (i < 64)) := by
  have h1 : SIZE_MAX = 2 ^ 64 - 1 := rfl
  have h2 : (0xFFFF : Nat) = 2 ^ 16 - 1 := by norm_num
  rw [h1, h2, Nat.testBit_xor, Nat.testBit_two_pow_sub_one, Nat.testBit_two_pow_sub_one]
  by_cases a : i < 16 <;> by_cases b : i < 64 <;> simp [a, b] <;> omega

/-- The mask of `RewriteVariable` rounds a position down to a 64 KiB boundary. -/
theorem and_mask (p : Nat) (hp : p < 2 ^ 64) :
    p &&& (SIZE_MAX ^^^ 0xFFFF) = p - p % 65536 := by
  have hdiv : p - p % 65536 = 2 ^ 16 * (p / 2 ^ 16) := by
    have := Nat.div_add_mod p 65536
    norm_num
    omega
  rw [hdiv]
  apply Nat.eq_of_testBit_eq
  intro i
  rw [Nat.testBit_and, mask_testBit, Nat.testBit_mul_pow_two]
  by_cases a : 16 ≤ i
  · by_cases b : i < 64
    · simp only [a, b, decide_True, Bool.and_true, Bool.true_and, ge_iff_le]
      rw [← Nat.shiftRight_eq_div_pow, Nat.testBit_shiftRight]
      congr 1
      omega
    · have hlt : p < 2 ^ i := Nat.lt_of_lt_of_le hp (Nat.pow_le_pow_right (by decide) (by omega))
      have hz := Nat.testBit_lt_two_pow hlt
      simp only [a, b, decide_True, decide_False, Bool.and_false, Bool.true_and, ge_iff_le]
      rw [← Nat.shiftRight_eq_div_pow, Nat.testBit_shiftRight]
      rw [show 16 + (i - 16) = i by omega, hz]
  · simp [a]

/-! ## Shape of the results -/

/-- Function `RewriteField` keeps the length of the image. -/
theorem RewriteField_length (img : List Nat) (past a v : Nat) (repl : List Nat) (hav : a ≤ v) :
    (RewriteField img past a v img.length repl).2.length = img.length := by
  rcases RewriteField_codes img past a v img.length repl with h | h
  · obtain ⟨ve, ae, h1, h2, _, h4, h5⟩ :=
      RewriteField_success_inv img past a v repl (RewriteField img past a v img.length repl).2
        hav (Prod.ext h rfl)
    have hve : v ≤ ve := h1.1
    have hae : ve + 1 ≤ ae := h2.1
    have hlen : ae < img.length := h2.2.1
    rw [h5]
    exact length_written img a (ae - a) repl (by omega) h4
  · rw [h]

/-- Function `RewriteField` is its boundary resolution followed by the fit check
and the write. -/
theorem RewriteField_eq_resolve (img : List Nat) (past a v e : Nat) (repl : List Nat) :
    RewriteField img past a v e repl =
      match RewriteField.resolve img past a v e with
      | none => (DataFailure, img)
      | some (_, ae) =>
        if repl.length > sizeDiff ae a then (DataFailure, img)
        else (Success, memset (memcpy img a repl) (a + repl.length) 0 (sizeDiff ae a - repl.length)) := by
  unfold RewriteField RewriteField.resolve
  cases memchr img v 0 (e - v) with
  | none => rfl
  | some ve =>
    dsimp only
    split_ifs <;> simp [*]

/-- What a successful boundary resolution found. -/
theorem resolve_some (img : List Nat) (past a v ve ae : Nat) (hav : a ≤ v)
    (h : RewriteField.resolve img past a v img.length = some (ve, ae)) :
    FirstNul img v ve ∧ FirstNonZero img (ve + 1) ae ∧ ae - a ≤ FIELD_RESERVED_AREA_LIMIT := by
  unfold RewriteField.resolve at h
  cases hm : memchr img v 0 (img.length - v) with
  | none => rw [hm] at h; simp at h
  | some ve' =>
    rw [hm] at h
    have hv := (memchr_eq_some_iff_firstNul img v ve').mp hm
    have hve := FirstNul_lt_length hv
    dsimp only at h
    split_ifs at h with c1 c2 c3
    simp only [Option.some.injEq, Prod.mk.injEq] at h
    obtain ⟨e1, e2⟩ := h
    subst e1
    rcases FindNonZeroByte_spec img past (ve' + 1) (by omega) with ⟨_, hz⟩ | ⟨he, _⟩
    · rw [e2] at hz
      have h1 : v ≤ ve' := hv.1
      have h2 : ve' + 1 ≤ ae := hz.1
      rw [e2, sizeDiff_of_le (show a ≤ ae by omega)] at c3
      exact ⟨hv, hz, by omega⟩
    · exact absurd he (by omega)

/-- Function `RewriteFieldWithBeacon` keeps the length of the image and the
cached offset. -/
theorem RewriteFieldWithBeacon_shape (im : ImageInfo_t) (past : Nat) (beacon repl : List Nat)
    (rc : RetCode_t) (im' : ImageInfo_t)
    (h : RewriteFieldWithBeacon im past beacon repl = some (rc, im')) :
    im'.Data.length = im.Data.length ∧ im'.Offset = im.Offset := by
  unfold RewriteFieldWithBeacon ImageInfo_t.Size at h
  cases hs : RewriteFieldWithBeacon.scan im.Data past (beacon ++ [0]) (im.Data.length + 1) 0
      im.Data.length with
  | none => rw [hs] at h; simp at h
  | some r =>
    rw [hs] at h
    cases r with
    | none =>
      simp only [Option.some.injEq, Prod.mk.injEq] at h
      rw [← h.2]
      exact ⟨rfl, rfl⟩
    | some q =>
      simp only [Option.some.injEq, Prod.mk.injEq] at h
      rw [← h.2]
      exact ⟨RewriteField_length im.Data past q q (repl ++ [0]) (Nat.le_refl _), rfl⟩

/-- Function `RewriteVersion` always returns, with `Success`, `BadConfig` or
`DataFailure`, and keeps the length of the image and the cached offset. -/
theorem RewriteVersion_total (im : ImageInfo_t) (past : Nat) (ver : List Nat) :
    ∃ rc im', RewriteVersion im past ver = some (rc, im') ∧
      im'.Data.length = im.Data.length ∧ im'.Offset = im.Offset := by
  unfold RewriteVersion
  by_cases hhead : ver.headD 0 = 0
  · rw [if_pos hhead]
    exact ⟨_, _, rfl, rfl, rfl⟩
  rw [if_neg hhead]
  dsimp only
  split_ifs
  · exact ⟨_, _, rfl, rfl, rfl⟩
  · obtain ⟨rc, data, hr, _⟩ := RewriteFieldWithBeacon_total im past (str "-version") ver
    have hs := RewriteFieldWithBeacon_shape im past _ _ _ _ hr
    exact ⟨_, _, hr, hs⟩
  · obtain ⟨rc1, d1, hr1, _⟩ := RewriteFieldWithBeacon_total im past (str "-version") ver
    obtain ⟨rc2, d2, hr2, _⟩ :=
      RewriteFieldWithBeacon_total { im with Data := d1 } past (str "QT_VERSION") ver
    have hs1 := RewriteFieldWithBeacon_shape im past _ _ _ _ hr1
    have hs2 := RewriteFieldWithBeacon_shape _ past _ _ _ _ hr2
    rw [hr1]
    dsimp only
    rw [hr2]
    dsimp only
    split_ifs
    · exact ⟨_, _, rfl, hs2.1.trans hs1.1, hs2.2.trans hs1.2⟩
    · exact ⟨_, _, rfl, hs2.1.trans hs1.1, hs2.2.trans hs1.2⟩
  · obtain ⟨rc1, d1, hr1, _⟩ := RewriteFieldWithBeacon_total im past (str "--version") ver
    obtain ⟨rc2, d2, hr2, _⟩ :=
      RewriteFieldWithBeacon_total { im with Data := d1 } past (str "QMAKE_VERSION") ver
    obtain ⟨rc3, d3, hr3, _⟩ :=
      RewriteFieldWithBeacon_total { im with Data := d2 } past (str ") (Qt ") ver
    have hs1 := RewriteFieldWithBeacon_shape im past _ _ _ _ hr1
    have hs2 := RewriteFieldWithBeacon_shape _ past _ _ _ _ hr2
    have hs3 := RewriteFieldWithBeacon_shape _ past _ _ _ _ hr3
    rw [hr1]
    dsimp only
    rw [hr2]
    dsimp only
    rw [hr3]
    dsimp only
    split_ifs
    · exact ⟨_, _, rfl, hs3.1.trans (hs2.1.trans hs1.1), hs3.2.trans (hs2.2.trans hs1.2)⟩
    · exact ⟨_, _, rfl, hs3.1.trans (hs2.1.trans hs1.1), hs3.2.trans (hs2.2.trans hs1.2)⟩
  · exact ⟨_, _, rfl, rfl, rfl⟩

/-- The loop over the variable specs, split at any point of the list. -/
theorem vars_append (past : Nat) (pre rest : List (List Nat)) :
    ∀ im, PatchQmakeExe.vars past im (pre ++ rest) =
      if (PatchQmakeExe.vars past im pre).1 ≠ Success then PatchQmakeExe.vars past im pre
      else
        ((PatchQmakeExe.vars past (PatchQmakeExe.vars past im pre).2.1 rest).1,
          (PatchQmakeExe.vars past (PatchQmakeExe.vars past im pre).2.1 rest).2.1,
          (PatchQmakeExe.vars past im pre).2.2 ++
            (PatchQmakeExe.vars past (PatchQmakeExe.vars past im pre).2.1 rest).2.2) := by
  induction pre with
  | nil => intro im; simp [PatchQmakeExe.vars]
  | cons s t ih =>
    intro im
    simp only [List.cons_append, PatchQmakeExe.vars]
    by_cases h : (RewriteVariable im past s).1 ≠ Success
    · rw [if_pos h, if_pos h, if_pos h]
    · rw [if_neg h, if_neg h]
      have := ih (RewriteVariable im past s).2
      have happ : t.append rest = t ++ rest := rfl
      rw [happ]
      by_cases h2 : (PatchQmakeExe.vars past (RewriteVariable im past s).2 t).1 ≠ Success
      · rw [if_pos h2] at this
        rw [if_pos h2, this]
      · rw [if_neg h2] at this
        rw [if_neg h2, this]
        rfl

/-- The loop calls `RewriteVariable` on every spec of the list when it ends with
`Success`. -/
theorem vars_success (past : Nat) (specs : List (List Nat)) :
    ∀ im, (PatchQmakeExe.vars past im specs).1 = Success →
      (PatchQmakeExe.vars past im specs).2.2 = specs := by
  induction specs with
  | nil => intro im _; rfl
  | cons s t ih =>
    intro im h
    simp only [PatchQmakeExe.vars] at h ⊢
    by_cases c : (RewriteVariable im past s).1 ≠ Success
    · rw [if_pos c] at h
      exact absurd h c
    · rw [if_neg c] at h
      rw [if_neg c]
      show s :: _ = s :: t
      rw [ih _ h]

/-! ## One call of `RewriteVariable` and the state it leaves -/

theorem strchr_some_ne_nil (s : List Nat) (k : Nat) (h : strchr s 61 = some k) : s ≠ [] := by
  intro hs
  subst hs
  simp [strchr] at h

/-- What a successful leader search found: an occurrence, either the first at
or after the cached offset, or, with nothing there and a non-zero offset, the
first of the whole image. -/
theorem find_some (im : ImageInfo_t) (leader : List Nat) (p : Nat)
    (h : RewriteVariable.find im leader = some p) :
    Occurs im.Data leader p ∧
      ((im.Offset ≤ p ∧ ∀ q, im.Offset ≤ q → q < p → ¬ Occurs im.Data leader q) ∨
       (im.Offset ≠ 0 ∧ (∀ q, im.Offset ≤ q → ¬ Occurs im.Data leader q) ∧
          ∀ q, q < p → ¬ Occurs im.Data leader q)) := by
  unfold RewriteVariable.find ImageInfo_t.Size at h
  cases hm : memmem im.Data im.Offset (im.Data.length - im.Offset) leader with
  | some r =>
    rw [hm] at h
    simp only [Option.some.injEq] at h
    subst h
    obtain ⟨h1, h2, h3⟩ := (memmem_eq_some im.Data im.Offset leader r).mp hm
    exact ⟨h2, Or.inl ⟨h1, h3⟩⟩
  | none =>
    rw [hm] at h
    dsimp only at h
    have hnone := (memmem_eq_none im.Data im.Offset leader).mp hm
    by_cases hoff : im.Offset ≠ 0
    · rw [if_pos hoff, memmem_zero] at h
      obtain ⟨_, h2, h3⟩ := (memmem_eq_some im.Data 0 leader p).mp h
      exact ⟨h2, Or.inr ⟨hoff, hnone, fun q hq => h3 q (Nat.zero_le _) hq⟩⟩
    · rw [if_neg hoff] at h
      simp at h

/-- One call of `RewriteVariable` on any string: either the state is left as it
was, or a leader was matched at some index `p` inside the image, the length of
the image is kept and the cached offset is updated from `p`. -/
theorem RewriteVariable_state (im : ImageInfo_t) (past : Nat) (spec : List Nat) :
    (RewriteVariable im past spec).2 = im ∨
    ∃ p, p < im.Size ∧
      (RewriteVariable im past spec).2.Data.length = im.Data.length ∧
      (RewriteVariable im past spec).2.Offset =
        if p &&& (SIZE_MAX ^^^ 0xFFFF) < im.Offset ∨ im.Offset = 0 then
          p &&& (SIZE_MAX ^^^ 0xFFFF) else im.Offset := by
  unfold RewriteVariable
  cases hk : strchr spec 61 with
  | none => exact Or.inl rfl
  | some k =>
    dsimp only
    cases hf : RewriteVariable.find im (spec.take (k + 1)) with
    | none => exact Or.inl rfl
    | some p =>
      dsimp only
      refine Or.inr ⟨p, ?_, ?_, rfl⟩
      · have hne : spec.take (k + 1) ≠ [] := by
          have := strchr_some_ne_nil spec k hk
          cases spec with
          | nil => exact absurd rfl this
          | cons x t => simp
        have hpos : 0 < (spec.take (k + 1)).length := List.length_pos.mpr hne
        have := Occurs_le_length (find_some im _ p hf).1 hne
        unfold ImageInfo_t.Size
        omega
      · exact RewriteField_length im.Data past p (p + (k + 1)) (spec ++ [0]) (by omega)

/-- The invariant of the cached offset along any sequence of calls. -/
theorem afterVariables_inv (past : Nat) (specs : List (List Nat)) :
    ∀ st : ImageInfo_t, st.Size ≤ SIZE_MAX → st.Offset % 65536 = 0 → st.Offset ≤ st.Size →
      (0 < st.Size → st.Offset < st.Size) →
      (afterVariables past st specs).Size = st.Size ∧
      (afterVariables past st specs).Offset % 65536 = 0 ∧
      (afterVariables past st specs).Offset ≤ st.Size ∧
      (0 < st.Size → (afterVariables past st specs).Offset < st.Size) := by
  induction specs with
  | nil => intro st _ h2 h3 h4; exact ⟨rfl, h2, h3, h4⟩
  | cons s rest ih =>
    intro st h1 h2 h3 h4
    have hstep : afterVariables past st (s :: rest) =
        afterVariables past (RewriteVariable st past s).2 rest := rfl
    rw [hstep]
    rcases RewriteVariable_state st past s with he | ⟨p, hp, hl, ho⟩
    · rw [he]
      exact ih st h1 h2 h3 h4
    · have hsz : (RewriteVariable st past s).2.Size = st.Size := hl
      have hmask := and_mask p (by unfold SIZE_MAX at h1; omega)
      rw [hmask] at ho
      have hmod : (p - p % 65536) % 65536 = 0 := by omega
      have hle : p - p % 65536 < st.Size := by omega
      have hoff : (RewriteVariable st past s).2.Offset % 65536 = 0 ∧
          (RewriteVariable st past s).2.Offset < st.Size := by
        rw [ho]
        split_ifs
        · exact ⟨hmod, hle⟩
        · exact ⟨h2, h4 (by omega)⟩
      have := ih (RewriteVariable st past s).2 (by rw [hsz]; exact h1) hoff.1
        (by rw [hsz]; omega) (by rw [hsz]; exact fun _ => hoff.2)
      rw [hsz] at this
      exact this

/-! ## The reads of the beacon scan -/

/-- The instrumented scan takes the same exits as the scan. -/
theorem scanReads_fst (img : List Nat) (past : Nat) (needle : List Nat) :
    ∀ fuel b n, (RewriteFieldWithBeacon.scanReads img past needle fuel b n).map Prod.fst =
      RewriteFieldWithBeacon.scan img past needle fuel b n := by
  intro fuel
  induction fuel with
  | zero => intro b n; rfl
  | succ fuel ih =>
    intro b n
    unfold RewriteFieldWithBeacon.scanReads RewriteFieldWithBeacon.scan
    by_cases h0 : n = 0
    · rw [if_pos h0, if_pos h0]; rfl
    · rw [if_neg h0, if_neg h0]
      cases memmem img b n needle with
      | none => rfl
      | some q =>
        dsimp only
        by_cases hpr : isprint (peek img past (q + needle.length)) = true
        · rw [if_pos hpr, if_pos hpr]; rfl
        · rw [if_neg hpr, if_neg hpr, ← ih]
          cases RewriteFieldWithBeacon.scanReads img past needle fuel (q + needle.length)
            (n - (q + needle.length - b)) <;> rfl

theorem scanReads_total (img : List Nat) (past : Nat) (needle : List Nat) (hn : needle ≠ [])
    (fuel b : Nat) (hb : b ≤ img.length) (hf : img.length - b < fuel) :
    ∃ r reads, RewriteFieldWithBeacon.scanReads img past needle fuel b (img.length - b) =
      some (r, reads) := by
  obtain ⟨r, hr⟩ := scan_total img past needle hn fuel b hb hf
  rw [← scanReads_fst] at hr
  cases hs : RewriteFieldWithBeacon.scanReads img past needle fuel b (img.length - b) with
  | none => rw [hs] at hr; simp at hr
  | some x => exact ⟨x.1, x.2, rfl⟩

/-- When `beacon + NUL` ends exactly at the image end and no occurrence is
followed inside the image by a printable byte, the scan applies `isprint` to the
byte at index `Size`, one past the last byte of the image. -/
theorem scanReads_end (img : List Nat) (past : Nat) (beacon : List Nat) (hb : 0 ∉ beacon)
    (hL : beacon.length + 1 ≤ img.length)
    (hend : Occurs img (beacon ++ [0]) (img.length - (beacon.length + 1)))
    (hno : ∀ q, q < img.length → ¬ Qualifies img beacon q) :
    ∀ fuel b, b ≤ img.length - (beacon.length + 1) → img.length - b < fuel →
      ∃ r reads, RewriteFieldWithBeacon.scanReads img past (beacon ++ [0]) fuel b
          (img.length - b) = some (r, reads) ∧ img.length ∈ reads := by
  have hlen : (beacon ++ [0]).length = beacon.length + 1 := by simp
  intro fuel
  induction fuel with
  | zero => intro b _ h; omega
  | succ fuel ih =>
    intro b hbp hf
    unfold RewriteFieldWithBeacon.scanReads
    rw [if_neg (by omega)]
    cases hm : memmem img b (img.length - b) (beacon ++ [0]) with
    | none =>
      exact absurd hend ((memmem_eq_none img b (beacon ++ [0])).mp hm _ hbp)
    | some q =>
      obtain ⟨hq1, hq2, hq3⟩ := (memmem_eq_some img b (beacon ++ [0]) q).mp hm
      have hqp : q ≤ img.length - (beacon.length + 1) := by
        by_contra hcon
        exact hq3 _ hbp (by omega) hend
      dsimp only
      rw [hlen]
      by_cases heq : q = img.length - (beacon.length + 1)
      · have hpos : q + (beacon.length + 1) = img.length := by omega
        rw [hpos]
        by_cases hpr : isprint (peek img past img.length) = true
        · rw [if_pos hpr]
          exact ⟨_, _, rfl, by simp⟩
        · rw [if_neg hpr]
          have hnd : img.length - b - (img.length - b) = img.length - img.length := by omega
          rw [hnd]
          obtain ⟨r, reads, hr⟩ := scanReads_total img past (beacon ++ [0]) (by simp) fuel
            img.length (Nat.le_refl _) (by omega)
          rw [hr]
          exact ⟨_, _, rfl, by simp⟩
      · have hlt : q < img.length - (beacon.length + 1) := by omega
        have hno' := Occurs_no_overlap hb hq2 hend hlt
        have hin' : q + (beacon.length + 1) < img.length := by omega
        have hnp : ¬ isprint (peek img past (q + (beacon.length + 1))) = true := by
          rw [peek_eq_getD img past _ hin']
          intro hc
          exact hno q (by omega) ⟨hq2, hin', hc⟩
        rw [if_neg hnp]
        have hnd : img.length - b - (q + (beacon.length + 1) - b) =
            img.length - (q + (beacon.length + 1)) := by omega
        rw [hnd]
        obtain ⟨r, reads, hr, hmem⟩ := ih (q + (beacon.length + 1)) hno' (by omega)
        rw [hr]
        exact ⟨_, _, rfl, List.mem_cons_of_mem _ hmem⟩

/-- Without an occurrence of `beacon + NUL` followed inside the image by a
printable byte, `RewriteFieldWithBeacon` fails and leaves the image as it was. -/
theorem RewriteFieldWithBeacon_unqualified (im : ImageInfo_t) (past : Nat)
    (beacon repl : List Nat)
    (h : ∀ p, p < im.Data.length → ¬ Qualifies im.Data beacon p) :
    RewriteFieldWithBeacon im past beacon repl = some (DataFailure, im) := by
  obtain ⟨r, hr⟩ := scan_total im.Data past (beacon ++ [0]) (by simp) (im.Data.length + 1) 0
    (Nat.zero_le _) (by omega)
  have hr' := hr
  rw [Nat.sub_zero] at hr
  unfold RewriteFieldWithBeacon ImageInfo_t.Size
  rw [hr]
  cases r with
  | none => rfl
  | some r =>
    obtain ⟨q, hq, hrq, hle, hpr⟩ :=
      scan_accepts im.Data past (beacon ++ [0]) (by simp) _ 0 r (Nat.zero_le _) hr'
    have hlen : (beacon ++ [0]).length = beacon.length + 1 := by simp
    rw [hlen] at hrq
    have hend : r = im.Data.length := by
      by_contra hne
      have hlt : r < im.Data.length := by omega
      refine h q (by omega) ⟨hq, by omega, ?_⟩
      rw [← hrq, ← peek_eq_getD im.Data past r hlt]
      exact hpr
    subst hend
    dsimp only
    rw [RewriteField_unterminated im.Data past _ _ (repl ++ [0])
      (fun j h1 h2 => by omega)]

/-- A match returned by `memmem`, over whatever window, is an occurrence of the
needle in the image. -/
theorem memmem_some_occurs (img : List Nat) (b n : Nat) (needle : List Nat) (q : Nat)
    (h : memmem img b n needle = some q) : Occurs img needle q := by
  unfold memmem at h
  rw [Option.map_eq_some'] at h
  obtain ⟨k, hk, rfl⟩ := h
  rw [memmem_go_eq_some] at hk
  have h1 := hk.1
  rw [List.drop_take, List.drop_drop] at h1
  exact h1.trans (List.take_prefix _ _)

/-- Every index read by the printability test of the scan lies right after an
occurrence of the needle. -/
theorem scanReads_after_occurrence (img : List Nat) (past : Nat) (needle : List Nat) :
    ∀ fuel b n r reads,
      RewriteFieldWithBeacon.scanReads img past needle fuel b n = some (r, reads) →
      ∀ i, i ∈ reads → ∃ q, Occurs img needle q ∧ i = q + needle.length := by
  intro fuel
  induction fuel with
  | zero => intro b n r reads h; simp [RewriteFieldWithBeacon.scanReads] at h
  | succ fuel ih =>
    intro b n r reads h i hi
    unfold RewriteFieldWithBeacon.scanReads at h
    by_cases h0 : n = 0
    · rw [if_pos h0] at h
      simp only [Option.some.injEq, Prod.mk.injEq] at h
      rw [← h.2] at hi
      simp at hi
    · rw [if_neg h0] at h
      cases hm : memmem img b n needle with
      | none =>
        rw [hm] at h
        simp only [Option.some.injEq, Prod.mk.injEq] at h
        rw [← h.2] at hi
        simp at hi
      | some q =>
        rw [hm] at h
        have hq2 := memmem_some_occurs img b n needle q hm
        dsimp only at h
        by_cases hpr : isprint (peek img past (q + needle.length)) = true
        · rw [if_pos hpr] at h
          simp only [Option.some.injEq, Prod.mk.injEq] at h
          rw [← h.2] at hi
          simp only [List.mem_singleton] at hi
          exact ⟨q, hq2, hi⟩
        · rw [if_neg hpr] at h
          cases hrec : RewriteFieldWithBeacon.scanReads img past needle fuel
              (q + needle.length) (n - (q + needle.length - b)) with
          | none => rw [hrec] at h; simp at h
          | some x =>
            rw [hrec] at h
            simp only [Option.map_some', Option.some.injEq, Prod.mk.injEq] at h
            rw [← h.2] at hi
            rcases List.mem_cons.mp hi with hi | hi
            · exact ⟨q, hq2, hi⟩
            · exact ih (q + needle.length) _ x.1 x.2 hrec i hi

/-! ## The reads of the padding scan -/

/-- The instrumented padding scan finds the position that the padding scan finds. -/
theorem goReads_fst (img : List Nat) (past e : Nat) :
    ∀ fuel cur, (FindNonZeroByte.goReads img past e fuel cur).1 =
      FindNonZeroByte.go img past e fuel cur := by
  intro fuel
  induction fuel with
  | zero => intro cur; rfl
  | succ fuel ih =>
    intro cur
    unfold FindNonZeroByte.goReads FindNonZeroByte.go
    by_cases hc : peek img past cur = 0 ∧ cur < e
    · rw [if_pos hc, if_pos hc]
      exact ih (cur + 1)
    · rw [if_neg hc, if_neg hc]

theorem reads_fst (img : List Nat) (past b e : Nat) :
    (FindNonZeroByte.reads img past b e).1 = FindNonZeroByte img past b e :=
  goReads_fst img past e _ _

theorem go_ge (img : List Nat) (past e : Nat) :
    ∀ fuel cur, cur ≤ FindNonZeroByte.go img past e fuel cur := by
  intro fuel
  induction fuel with
  | zero => intro cur; exact Nat.le_refl _
  | succ fuel ih =>
    intro cur
    unfold FindNonZeroByte.go
    by_cases hc : peek img past cur = 0 ∧ cur < e
    · rw [if_pos hc]
      exact Nat.le_trans (Nat.le_succ cur) (ih (cur + 1))
    · rw [if_neg hc]

/-- The padding scan reads only indices from its start up to the position it
returns. -/
theorem goReads_range (img : List Nat) (past e : Nat) :
    ∀ fuel cur i, i ∈ (FindNonZeroByte.goReads img past e fuel cur).2 →
      cur ≤ i ∧ i ≤ FindNonZeroByte.go img past e fuel cur := by
  intro fuel
  induction fuel with
  | zero => intro cur i hi; simp [FindNonZeroByte.goReads] at hi
  | succ fuel ih =>
    intro cur i hi
    unfold FindNonZeroByte.goReads at hi
    unfold FindNonZeroByte.go
    by_cases hc : peek img past cur = 0 ∧ cur < e
    · rw [if_pos hc] at hi
      rw [if_pos hc]
      have hmono := go_ge img past e fuel (cur + 1)
      rcases List.mem_cons.mp hi with hi | hi
      · omega
      · have := ih (cur + 1) i hi
        omega
    · rw [if_neg hc] at hi
      rw [if_neg hc]
      simp only [List.mem_singleton] at hi
      omega

/-- When only zero bytes lie between the start of the padding scan and the end
of the image, the scan reads the byte at the index `pvEnd`. -/
theorem goReads_end (img : List Nat) (past e : Nat) (he : e ≤ img.length) :
    ∀ fuel cur, cur ≤ e → e < cur + fuel →
      (∀ j, cur ≤ j → j < e → img[j]? = some 0) →
      e ∈ (FindNonZeroByte.goReads img past e fuel cur).2 := by
  intro fuel
  induction fuel with
  | zero => intro cur h1 h2; omega
  | succ fuel ih =>
    intro cur h1 h2 hz
    unfold FindNonZeroByte.goReads
    by_cases hc : peek img past cur = 0 ∧ cur < e
    · rw [if_pos hc]
      exact List.mem_cons_of_mem _
        (ih (cur + 1) (by omega) (by omega) (fun j hj1 hj2 => hz j (by omega) hj2))
    · rw [if_neg hc]
      have hcur : cur = e := by
        by_contra hne
        have hlt : cur < e := by omega
        have hb := hz cur (Nat.le_refl _) hlt
        rw [peek_of_lt img past cur (by omega)] at hb
        exact hc ⟨by simpa using hb, hlt⟩
      rw [hcur]
      exact List.mem_singleton.mpr rfl

/-- When the boundaries of the field resolve, the padding scan of `RewriteField`
reads inside the image only. -/
theorem padReads_inside (img : List Nat) (past a v ve ae : Nat)
    (hv : FirstNul img v ve) (ha : FirstNonZero img (ve + 1) ae) :
    ∀ i, i ∈ RewriteField.padReads img past a v img.length → i < img.length := by
  intro i hi
  unfold RewriteField.padReads at hi
  rw [(memchr_eq_some_iff_firstNul img v ve).mpr hv] at hi
  dsimp only at hi
  split_ifs at hi
  · simp at hi
  · have hve := FirstNul_lt_length hv
    have hr := (goReads_range img past img.length _ _ i hi).2
    have hf : FindNonZeroByte img past (ve + 1) img.length = ae := by
      rcases FindNonZeroByte_spec img past (ve + 1) (by omega) with ⟨_, h⟩ | ⟨_, h⟩
      · exact FirstNonZero_unique h ha
      · exact absurd (h ae ha.1 ha.2.1) ha.2.2.1
    have hae : ae < img.length := ha.2.1
    unfold FindNonZeroByte at hf
    omega

/-! ## The cache as a hint, and a second call -/

theorem Occurs_of_getElem? {img needle : List Nat} {q : Nat}
    (h : ∀ j, j < needle.length → img[q + j]? = needle[j]?) : Occurs img needle q := by
  unfold Occurs
  rw [List.prefix_iff_eq_take]
  apply List.ext_getElem?
  intro n
  rw [List.getElem?_take, List.getElem?_drop]
  by_cases hn : n < needle.length
  · rw [if_pos hn, h n hn]
  · rw [if_neg hn, List.getElem?_eq_none (by omega)]

/-- The leader search of an image whose cached offset is zero is one `memmem`
over the whole image. -/
theorem find_zero (data leader : List Nat) :
    RewriteVariable.find ⟨data, 0⟩ leader = memmem data 0 (data.length - 0) leader := by
  unfold RewriteVariable.find ImageInfo_t.Size
  cases memmem data 0 (data.length - 0) leader with
  | none => simp
  | some p => rfl

/-- The leader search does not depend on the cached offset when the leader does
not occur on both sides of it. -/
theorem find_hint (im : ImageInfo_t) (leader : List Nat) (hl : leader ≠ [])
    (h : (∀ q, im.Offset ≤ q → q < im.Size → ¬ Occurs im.Data leader q) ∨
      (∀ q, q < im.Offset → ¬ Occurs im.Data leader q)) :
    RewriteVariable.find im leader = RewriteVariable.find ⟨im.Data, 0⟩ leader := by
  have hpos : 0 < leader.length := List.length_pos.mpr hl
  have hin : ∀ q, Occurs im.Data leader q → q < im.Size := by
    intro q ho
    have := Occurs_le_length ho hl
    unfold ImageInfo_t.Size
    omega
  rw [find_zero]
  cases hf : RewriteVariable.find im leader with
  | none =>
    have := (find_eq_none im leader).mp hf
    exact ((memmem_eq_none im.Data 0 leader).mpr (fun q _ => this q)).symm
  | some p =>
    obtain ⟨ho, hc⟩ := find_some im leader p hf
    refine ((memmem_eq_some im.Data 0 leader p).mpr ⟨Nat.zero_le _, ho, ?_⟩).symm
    intro q _ hq hoq
    rcases hc with ⟨h1, h2⟩ | ⟨_, _, h3⟩
    · rcases h with h | h
      · exact h p h1 (hin p ho) ho
      · by_cases hqo : im.Offset ≤ q
        · exact h2 q hqo hq hoq
        · exact h q (by omega) hoq
    · exact h3 q hq hoq

/-- Writing the same replacement into the same area a second time changes
nothing. -/
theorem written_idem (img : List Nat) (a r : Nat) (repl : List Nat)
    (hr : a + r ≤ img.length) (hn : repl.length ≤ r) :
    memset (memcpy (memset (memcpy img a repl) (a + repl.length) 0 (r - repl.length)) a repl)
        (a + repl.length) 0 (r - repl.length) =
      memset (memcpy img a repl) (a + repl.length) 0 (r - repl.length) := by
  apply List.ext_getElem?
  intro i
  have hlen := length_written img a r repl hr hn
  rw [getElem?_written _ a r repl i (by rw [hlen]; exact hr) hn,
    getElem?_written img a r repl i hr hn]
  split_ifs <;> rfl

/-- The code and the bytes that `RewriteVariable` returns are those of the
`RewriteField` call at the leader match. -/
theorem RewriteVariable_data (im : ImageInfo_t) (past : Nat) (name value : List Nat) (p : Nat)
    (hn : 61 ∉ name) (h0 : 0 ∉ name)
    (hfind : RewriteVariable.find im (name ++ [61]) = some p) :
    (RewriteVariable im past (name ++ [61] ++ value)).1 =
      (RewriteField im.Data past p (p + (name.length + 1)) im.Data.length
        (name ++ [61] ++ value ++ [0])).1 ∧
    (RewriteVariable im past (name ++ [61] ++ value)).2.Data =
      (RewriteField im.Data past p (p + (name.length + 1)) im.Data.length
        (name ++ [61] ++ value ++ [0])).2 := by
  rw [RewriteVariable_pair im past name value hn h0, hfind]
  exact ⟨rfl, rfl⟩

/-- An image with the leader `q=` at index 0 and again at the index `off` of the
cached offset: with that offset the byte at index 2 is left alone, with the
offset 0 it is overwritten. -/
theorem two_occurrences (mid : List Nat) (past off : Nat) (hoff : off = 6 + mid.length) :
    (RewriteVariable ⟨[113, 61, 65, 0, 0, 1] ++ mid ++ [113, 61, 66, 0, 0, 1], off⟩ past
        ([113] ++ [61] ++ [90])).2.Data[2]? = some 65 ∧
    (RewriteVariable ⟨[113, 61, 65, 0, 0, 1] ++ mid ++ [113, 61, 66, 0, 0, 1], 0⟩ past
        ([113] ++ [61] ++ [90])).2.Data[2]? = some 90 := by
  have hlen : ([113, 61, 65, 0, 0, 1] ++ mid ++ [113, 61, 66, 0, 0, 1]).length =
      mid.length + 12 := by
    simp
  have hsmall : ∀ i, i < 6 →
      ([113, 61, 65, 0, 0, 1] ++ mid ++ [113, 61, 66, 0, 0, 1])[i]? =
        ([113, 61, 65, 0, 0, 1] : List Nat)[i]? := by
    intro i hi
    rw [List.append_assoc, List.getElem?_append_left (by simpa using hi)]
  constructor
  · have hocc : Occurs ([113, 61, 65, 0, 0, 1] ++ mid ++ [113, 61, 66, 0, 0, 1])
        ([113] ++ [61]) off := by
      unfold Occurs
      rw [List.drop_left' (by rw [hoff]; simp; omega)]
      decide
    have hf := find_of_after
      ⟨[113, 61, 65, 0, 0, 1] ++ mid ++ [113, 61, 66, 0, 0, 1], off⟩ ([113] ++ [61]) off
      (Nat.le_refl _) hocc (fun q h1 h2 => absurd h1 (Nat.not_le_of_lt h2))
    rw [(RewriteVariable_data _ past [113] [90] off (by decide) (by decide) hf).2]
    dsimp only
    rw [RewriteField_before_area _ past off _ _ (by omega) 2 (by omega), hsmall 2 (by omega)]
    rfl
  · have hocc : Occurs ([113, 61, 65, 0, 0, 1] ++ mid ++ [113, 61, 66, 0, 0, 1])
        ([113] ++ [61]) 0 :=
      ⟨[65, 0, 0, 1] ++ mid ++ [113, 61, 66, 0, 0, 1], by simp⟩
    have hf := find_of_after
      ⟨[113, 61, 65, 0, 0, 1] ++ mid ++ [113, 61, 66, 0, 0, 1], 0⟩ ([113] ++ [61]) 0
      (Nat.le_refl _) hocc (fun q _ h2 => absurd h2 (by omega))
    have hv : FirstNul ([113, 61, 65, 0, 0, 1] ++ mid ++ [113, 61, 66, 0, 0, 1])
        (0 + (([113] : List Nat).length + 1)) 3 := by
      refine ⟨by simp, by rw [hsmall 3 (by omega)]; rfl, ?_⟩
      intro j h1 h2
      have : j = 2 := by simp at h1; omega
      subst this
      rw [hsmall 2 (by omega)]
      decide
    have ha : FirstNonZero ([113, 61, 65, 0, 0, 1] ++ mid ++ [113, 61, 66, 0, 0, 1]) (3 + 1) 5 := by
      refine ⟨by omega, by rw [hlen]; omega, by rw [hsmall 5 (by omega)]; decide, ?_⟩
      intro j h1 h2
      have : j = 4 := by omega
      subst this
      rw [hsmall 4 (by omega)]
      rfl
    rw [(RewriteVariable_data _ past [113] [90] 0 (by decide) (by decide) hf).2]
    dsimp only
    rw [RewriteField_resolved _ past 0 _ _ 3 5 (by omega) hv ha, if_pos (by decide)]
    show (memset _ _ _ _)[2]? = _
    rw [getElem?_written _ 0 (5 - 0) _ 2 (by rw [hlen]; omega) (by decide)]
    rfl

/-- The state after a successful rewrite of the pair at the leader match `p`:
the leader is still found at `p`, the new value ends at `p + len(spec)`, the
first non-zero byte after it is where it was, and rewriting the same pair once
more succeeds and changes nothing. -/
theorem second_call (data : List Nat) (past : Nat) (name value : List Nat) (p ve ae off : Nat)
    (hv0 : 0 ∉ value)
    (hocc : Occurs data (name ++ [61]) p)
    (hv : FirstNul data (p + (name.length + 1)) ve) (ha : FirstNonZero data (ve + 1) ae)
    (hlim : ae - p ≤ FIELD_RESERVED_AREA_LIMIT)
    (hfit : (name ++ [61] ++ value ++ [0]).length ≤ ae - p)
    (hoff : off ≤ p) (hnone : ∀ q, off ≤ q → q < p → ¬ Occurs data (name ++ [61]) q) :
    RewriteVariable.find
        ⟨memset (memcpy data p (name ++ [61] ++ value ++ [0]))
          (p + (name ++ [61] ++ value ++ [0]).length) 0
          (ae - p - (name ++ [61] ++ value ++ [0]).length), off⟩ (name ++ [61]) = some p ∧
    FirstNul
        (memset (memcpy data p (name ++ [61] ++ value ++ [0]))
          (p + (name ++ [61] ++ value ++ [0]).length) 0
          (ae - p - (name ++ [61] ++ value ++ [0]).length))
        (p + (name.length + 1)) (p + (name ++ [61] ++ value).length) ∧
    FirstNonZero
        (memset (memcpy data p (name ++ [61] ++ value ++ [0]))
          (p + (name ++ [61] ++ value ++ [0]).length) 0
          (ae - p - (name ++ [61] ++ value ++ [0]).length))
        (p + (name ++ [61] ++ value).length + 1) ae ∧
    RewriteField
        (memset (memcpy data p (name ++ [61] ++ value ++ [0]))
          (p + (name ++ [61] ++ value ++ [0]).length) 0
          (ae - p - (name ++ [61] ++ value ++ [0]).length))
        past p (p + (name.length + 1))
        (memset (memcpy data p (name ++ [61] ++ value ++ [0]))
          (p + (name ++ [61] ++ value ++ [0]).length) 0
          (ae - p - (name ++ [61] ++ value ++ [0]).length)).length
        (name ++ [61] ++ value ++ [0]) =
      (Success,
        memset (memcpy data p (name ++ [61] ++ value ++ [0]))
          (p + (name ++ [61] ++ value ++ [0]).length) 0
          (ae - p - (name ++ [61] ++ value ++ [0]).length)) := by
  have hL : (name ++ [61]).length = name.length + 1 := by simp
  have hsl : (name ++ [61] ++ value).length = name.length + 1 + value.length := by
    simp only [List.length_append, List.length_singleton]
  have hrl : (name ++ [61] ++ value ++ [0]).length = name.length + 1 + value.length + 1 := by
    simp only [List.length_append, List.length_singleton]
  have hve : p + (name.length + 1) ≤ ve := hv.1
  have hae : ve + 1 ≤ ae := ha.1
  have hlen : ae < data.length := ha.2.1
  have hbound : p + (ae - p) ≤ data.length := by omega
  have hW := fun i => getElem?_written data p (ae - p) (name ++ [61] ++ value ++ [0]) i hbound hfit
  have hWlen := length_written data p (ae - p) (name ++ [61] ++ value ++ [0]) hbound hfit
  have hr_leader : ∀ j, j < name.length + 1 →
      (name ++ [61] ++ value ++ [0])[j]? = (name ++ [61])[j]? := by
    intro j hj
    rw [List.append_assoc (name ++ [61]), List.getElem?_append_left (by omega)]
  have hr_value : ∀ j, j < value.length →
      (name ++ [61] ++ value ++ [0])[name.length + 1 + j]? = value[j]? := by
    intro j hj
    rw [List.getElem?_append_left (by omega), List.getElem?_append_right (by omega), hL,
      Nat.add_sub_cancel_left]
  have hr_last : (name ++ [61] ++ value ++ [0])[name.length + 1 + value.length]? = some 0 := by
    rw [List.getElem?_append_right (by omega), hsl, Nat.sub_self]
    rfl
  have hoccW : Occurs (memset (memcpy data p (name ++ [61] ++ value ++ [0]))
      (p + (name ++ [61] ++ value ++ [0]).length) 0
      (ae - p - (name ++ [61] ++ value ++ [0]).length)) (name ++ [61]) p := by
    apply Occurs_of_getElem?
    intro j hj
    rw [hW, if_neg (by omega), if_pos (by omega), Nat.add_sub_cancel_left, hr_leader j (by omega)]
  have hback : ∀ q, q < p →
      Occurs (memset (memcpy data p (name ++ [61] ++ value ++ [0]))
        (p + (name ++ [61] ++ value ++ [0]).length) 0
        (ae - p - (name ++ [61] ++ value ++ [0]).length)) (name ++ [61]) q →
      Occurs data (name ++ [61]) q := by
    intro q hq ho
    apply Occurs_of_getElem?
    intro j hj
    have hj' := Occurs_getElem? ho j hj
    rw [hW] at hj'
    by_cases c : q + j < p
    · rw [if_pos c] at hj'
      exact hj'
    · rw [if_neg c, if_pos (by omega)] at hj'
      have e1 := Occurs_getElem? hocc (q + j - p) (by omega)
      rw [show p + (q + j - p) = q + j by omega] at e1
      rw [e1, ← hr_leader (q + j - p) (by omega)]
      exact hj'
  have hvW : FirstNul (memset (memcpy data p (name ++ [61] ++ value ++ [0]))
      (p + (name ++ [61] ++ value ++ [0]).length) 0
      (ae - p - (name ++ [61] ++ value ++ [0]).length))
      (p + (name.length + 1)) (p + (name ++ [61] ++ value).length) := by
    refine ⟨by omega, ?_, ?_⟩
    · rw [hW, if_neg (by omega), if_pos (by omega), Nat.add_sub_cancel_left, hsl, hr_last]
    · intro j h1 h2 hz
      rw [hW, if_neg (by omega), if_pos (by omega)] at hz
      have hk : j - p = name.length + 1 + (j - p - (name.length + 1)) := by omega
      rw [hk, hr_value _ (by omega)] at hz
      exact hv0 (List.mem_iff_getElem?.mpr ⟨_, hz⟩)
  have haW : FirstNonZero (memset (memcpy data p (name ++ [61] ++ value ++ [0]))
      (p + (name ++ [61] ++ value ++ [0]).length) 0
      (ae - p - (name ++ [61] ++ value ++ [0]).length))
      (p + (name ++ [61] ++ value).length + 1) ae := by
    refine ⟨by omega, by rw [hWlen]; exact hlen, ?_, ?_⟩
    · rw [hW, if_neg (by omega), if_neg (by omega), if_neg (by omega)]
      exact ha.2.2.1
    · intro j h1 h2
      rw [hW, if_neg (by omega), if_neg (by omega), if_pos (by omega)]
  refine ⟨find_of_after _ _ p hoff hoccW (fun q h1 h2 ho => hnone q h1 h2 (hback q h2 ho)),
    hvW, haW, ?_⟩
  rw [RewriteField_resolved _ past p (p + (name.length + 1)) (name ++ [61] ++ value ++ [0])
    (p + (name ++ [61] ++ value).length) ae (by omega) hvW haW, if_pos ⟨hlim, hfit⟩,
    written_idem data p (ae - p) _ hbound hfit]

/-! ## Properties of the specification -/

/-- C1: if `RewriteField`, called with `area_start ≤ value_start ≤ image end`,
returns `Success`, the image keeps its length and every byte at an index outside
`[area_start, area_end)` is the same before and after, `area_end` being the
position of the first non-zero byte after the first NUL of the value. -/
theorem RewriteField_frame (img : List Nat) (past a v : Nat) (repl img' : List Nat)
    (hav : a ≤ v) (_hv : v ≤ img.length)
    (h : RewriteField img past a v img.length repl = (Success, img')) :
    img'.length = img.length ∧
      ∃ ve ae, FirstNul img v ve ∧ FirstNonZero img (ve + 1) ae ∧
        ∀ i, i < a ∨ ae ≤ i → img'[i]? = img[i]? := by
  obtain ⟨ve, ae, h1, h2, _, h4, h5⟩ := RewriteField_success_inv img past a v repl img' hav h
  have hve : v ≤ ve := h1.1
  have hae : ve + 1 ≤ ae := h2.1
  have hlen : ae < img.length := h2.2.1
  subst h5
  refine ⟨length_written img a (ae - a) repl (by omega) h4, ve, ae, h1, h2, ?_⟩
  intro i hi
  rw [getElem?_written img a (ae - a) repl i (by omega) h4]
  rcases hi with hi | hi
  · rw [if_pos hi]
  · rw [if_neg (by omega), if_neg (by omega), if_neg (by omega)]

theorem RewriteField_frame_witness :
    RewriteField [65, 66, 0, 0, 0, 7, 8] 9 0 0 7 [67, 0] = (Success, [67, 0, 0, 0, 0, 7, 8]) ∧
    (([67, 0, 0, 0, 0, 7, 8] : List Nat).length = ([65, 66, 0, 0, 0, 7, 8] : List Nat).length ∧
      ∃ ve ae, FirstNul [65, 66, 0, 0, 0, 7, 8] 0 ve ∧
        FirstNonZero [65, 66, 0, 0, 0, 7, 8] (ve + 1) ae ∧
        ∀ i, i < 0 ∨ ae ≤ i →
          ([67, 0, 0, 0, 0, 7, 8] : List Nat)[i]? = ([65, 66, 0, 0, 0, 7, 8] : List Nat)[i]?) :=
  ⟨by decide,
    RewriteField_frame [65, 66, 0, 0, 0, 7, 8] 9 0 0 [67, 0] [67, 0, 0, 0, 0, 7, 8]
      (by decide) (by decide) (by decide)⟩

/-- C2: after a successful `RewriteField` (called with `area_start ≤ value_start`)
with a replacement of `n` bytes, the bytes at `[area_start, area_start + n)` are
the replacement and every byte at `[area_start + n, area_end)` is zero, `area_end`
being the position of the first non-zero byte after the first NUL of the old value. -/
theorem RewriteField_written (img : List Nat) (past a v : Nat) (repl img' : List Nat)
    (hav : a ≤ v)
    (h : RewriteField img past a v img.length repl = (Success, img')) :
    ∃ ve ae, FirstNul img v ve ∧ FirstNonZero img (ve + 1) ae ∧
      (∀ j, j < repl.length → img'[a + j]? = repl[j]?) ∧
      (∀ i, a + repl.length ≤ i → i < ae → img'[i]? = some 0) := by
  obtain ⟨ve, ae, h1, h2, _, h4, h5⟩ := RewriteField_success_inv img past a v repl img' hav h
  have hve : v ≤ ve := h1.1
  have hae : ve + 1 ≤ ae := h2.1
  have hlen : ae < img.length := h2.2.1
  subst h5
  refine ⟨ve, ae, h1, h2, ?_, ?_⟩
  · intro j hj
    rw [getElem?_written img a (ae - a) repl (a + j) (by omega) h4, if_neg (by omega),
      if_pos (by omega), Nat.add_sub_cancel_left]
  · intro i hi1 hi2
    rw [getElem?_written img a (ae - a) repl i (by omega) h4, if_neg (by omega),
      if_neg (by omega), if_pos (by omega)]

theorem RewriteField_written_witness :
    RewriteField [1, 65, 66, 67, 0, 0, 0, 7] 9 1 1 8 [88, 89, 0] =
        (Success, [1, 88, 89, 0, 0, 0, 0, 7]) ∧
    ∃ ve ae, FirstNul [1, 65, 66, 67, 0, 0, 0, 7] 1 ve ∧
      FirstNonZero [1, 65, 66, 67, 0, 0, 0, 7] (ve + 1) ae ∧
      (∀ j, j < ([88, 89, 0] : List Nat).length →
        ([1, 88, 89, 0, 0, 0, 0, 7] : List Nat)[1 + j]? = ([88, 89, 0] : List Nat)[j]?) ∧
      (∀ i, 1 + ([88, 89, 0] : List Nat).length ≤ i → i < ae →
        ([1, 88, 89, 0, 0, 0, 0, 7] : List Nat)[i]? = some 0) :=
  ⟨by decide,
    RewriteField_written [1, 65, 66, 67, 0, 0, 0, 7] 9 1 1 [88, 89, 0]
      [1, 88, 89, 0, 0, 0, 0, 7] (by decide) (by decide)⟩

/-- C3: when the boundaries of the field resolve (`ve` is the first NUL of the
value, `ae` the first non-zero byte after it inside the image, both lengths
within the limit of 4096), `RewriteField` returns `Success` exactly when the
replacement has at most `ae - area_start` bytes; with a longer replacement it
returns `DataFailure` and the image is unchanged. -/
theorem RewriteField_fit (img : List Nat) (past a v : Nat) (repl : List Nat) (ve ae : Nat)
    (hav : a ≤ v) (hv : FirstNul img v ve) (ha : FirstNonZero img (ve + 1) ae)
    (_h1 : ve - a ≤ FIELD_RESERVED_AREA_LIMIT) (h2 : ae - a ≤ FIELD_RESERVED_AREA_LIMIT) :
    ((RewriteField img past a v img.length repl).1 = Success ↔ repl.length ≤ ae - a) ∧
    (repl.length > ae - a → RewriteField img past a v img.length repl = (DataFailure, img)) := by
  rw [RewriteField_resolved img past a v repl ve ae hav hv ha]
  by_cases hc : repl.length ≤ ae - a
  · rw [if_pos ⟨h2, hc⟩]
    exact ⟨⟨fun _ => hc, fun _ => rfl⟩, fun h => absurd hc (by omega)⟩
  · rw [if_neg (fun h => hc h.2)]
    exact ⟨⟨fun h => by simp at h, fun h => absurd h hc⟩, fun _ => rfl⟩

theorem RewriteField_fit_witness :
    ((RewriteField [65, 0, 0, 0, 7] 9 0 0 5 [66, 67, 68, 69, 0]).1 = Success ↔
      ([66, 67, 68, 69, 0] : List Nat).length ≤ 4 - 0) ∧
    (([66, 67, 68, 69, 0] : List Nat).length > 4 - 0 →
      RewriteField [65, 0, 0, 0, 7] 9 0 0 5 [66, 67, 68, 69, 0] =
        (DataFailure, [65, 0, 0, 0, 7])) :=
  RewriteField_fit [65, 0, 0, 0, 7] 9 0 0 [66, 67, 68, 69, 0] 1 4 (by decide) (by decide)
    (by decide) (by decide) (by decide)

/-- C4: if no byte at an index in `[value_start, image end)` is zero,
`RewriteField` returns `DataFailure` and leaves every byte of the image unchanged. -/
theorem RewriteField_no_terminator (img : List Nat) (past a v : Nat) (repl : List Nat)
    (h : ∀ j, v ≤ j → j < img.length → img[j]? ≠ some 0) :
    RewriteField img past a v img.length repl = (DataFailure, img) := by
  exact RewriteField_unterminated img past a v repl h

theorem RewriteField_no_terminator_witness :
    RewriteField [0, 65, 66, 67] 0 1 1 4 [68, 0] = (DataFailure, [0, 65, 66, 67]) :=
  RewriteField_no_terminator [0, 65, 66, 67] 0 1 1 [68, 0] (by decide)

/-- C5, what the code does: when every byte after the first NUL `ve` of the
value up to the image end is zero (and `area_start ≤ value_start`), a call in
which that NUL is more than 4096 bytes after `area_start` returns `DataFailure`
without scanning the padding; every other call scans the padding and, since
`FindNonZeroByte` reads `*pcCur` before it tests `pcCur < pvEnd`, reads the byte
at index `Size`, outside the image.  If that read returns a byte, whatever it
is, the call returns `DataFailure` and leaves the image unchanged.  On the 13
bytes `-version\0x\0\0\0` with beacon `-version` and replacement `4.8.4`, the
scan accepts position 9 and the padding scan reads the indices 11, 12 and 13 of
the 13-byte image. -/
theorem RewriteField_padding_reads_outside (img : List Nat) (past a v : Nat)
    (repl : List Nat) (ve : Nat) (hav : a ≤ v) (hv : FirstNul img v ve)
    (hz : ∀ j, ve + 1 ≤ j → j < img.length → img[j]? = some 0) :
    (ve - a > FIELD_RESERVED_AREA_LIMIT →
      RewriteField.padReads img past a v img.length = []) ∧
    (ve - a ≤ FIELD_RESERVED_AREA_LIMIT →
      img.length ∈ RewriteField.padReads img past a v img.length) ∧
    RewriteField img past a v img.length repl = (DataFailure, img) ∧
    ∀ past' off : Nat,
      RewriteFieldWithBeacon.scan (str "-version" ++ [0] ++ str "x" ++ [0, 0, 0]) past'
          (str "-version" ++ [0]) (13 + 1) 0 13 = some (some 9) ∧
      RewriteField.padReads (str "-version" ++ [0] ++ str "x" ++ [0, 0, 0]) past' 9 9 13 =
        [11, 12, 13] ∧
      RewriteFieldWithBeacon ⟨str "-version" ++ [0] ++ str "x" ++ [0, 0, 0], off⟩ past'
          (str "-version") (str "4.8.4") =
        some (DataFailure, ⟨str "-version" ++ [0] ++ str "x" ++ [0, 0, 0], off⟩) := by
  have hm := (memchr_eq_some_iff_firstNul img v ve).mpr hv
  have hve := FirstNul_lt_length hv
  have h1 : v ≤ ve := hv.1
  refine ⟨?_, ?_, ?_, ?_⟩
  · intro hgt
    unfold RewriteField.padReads
    rw [hm]
    dsimp only
    rw [sizeDiff_of_le (show a ≤ ve by omega), if_pos hgt]
  · intro hle
    unfold RewriteField.padReads
    rw [hm]
    dsimp only
    rw [sizeDiff_of_le (show a ≤ ve by omega), if_neg (by omega)]
    exact goReads_end img past img.length (Nat.le_refl _) _ (ve + 1) (by omega) (by omega) hz
  · apply RewriteField_unresolved
    rintro ⟨ve', ae, hv', ha⟩
    have := FirstNul_unique hv hv'
    subst this
    exact ha.2.2.1 (hz ae ha.1 ha.2.1)
  · intro past' off
    refine ⟨?_, ?_, ?_⟩
    · simp [str, RewriteFieldWithBeacon.scan, memmem, memmem.go, isprint, peek]
    · by_cases hp : past' = 0 <;>
        simp [str, RewriteField.padReads, memchr, memchr.go, sizeDiff,
          FIELD_RESERVED_AREA_LIMIT, FindNonZeroByte.reads, FindNonZeroByte.goReads, peek, hp]
    · simp [RewriteFieldWithBeacon, str, ImageInfo_t.Size, RewriteFieldWithBeacon.scan, memmem,
        memmem.go, isprint, peek, RewriteField, memchr, memchr.go, sizeDiff,
        FIELD_RESERVED_AREA_LIMIT, FindNonZeroByte, FindNonZeroByte.go]

theorem RewriteField_padding_reads_outside_witness :
    ([65, 66, 0, 0, 0] : List Nat).length ∈ RewriteField.padReads [65, 66, 0, 0, 0] 9 0 0 5 ∧
    RewriteField [65, 66, 0, 0, 0] 9 0 0 5 [67, 0] = (DataFailure, [65, 66, 0, 0, 0]) :=
  ⟨(RewriteField_padding_reads_outside [65, 66, 0, 0, 0] 9 0 0 [67, 0] 2 (by decide)
      (by decide) (by decide)).2.1 (by decide),
    (RewriteField_padding_reads_outside [65, 66, 0, 0, 0] 9 0 0 [67, 0] 2 (by decide)
      (by decide) (by decide)).2.2.1⟩

/-- C6, what the code does: when no occurrence of `beacon + NUL` in the image is
immediately followed, inside the image, by a printable byte, there are two
cases.  If `beacon + NUL` does not end exactly at the image end,
`RewriteFieldWithBeacon` returns `DataFailure`, leaves the image unchanged and
its printability test reads inside the image only.  If `beacon + NUL` (the
beacon a C string, free of NUL) ends exactly at the image end, the scan gets to
that occurrence and the printability test reads the byte at index `Size`,
outside the image; the 19 bytes `-version\0\x01-version\0` with beacon
`-version` make it read the indices 9 and 19.  Resuming the scan after each
rejected match misses nothing: for a NUL-free beacon, whenever some occurrence is
followed inside the image by a printable byte, the scan stops right after such
an occurrence. -/
theorem RewriteFieldWithBeacon_not_found_reads (im : ImageInfo_t) (past : Nat)
    (beacon repl : List Nat) :
    ((∀ p, p < im.Data.length → ¬ Qualifies im.Data beacon p) →
      ¬ (beacon.length + 1 ≤ im.Size ∧
          Occurs im.Data (beacon ++ [0]) (im.Size - (beacon.length + 1))) →
      RewriteFieldWithBeacon im past beacon repl = some (DataFailure, im) ∧
      ∃ r reads,
        RewriteFieldWithBeacon.scanReads im.Data past (beacon ++ [0]) (im.Size + 1) 0 im.Size =
          some (r, reads) ∧
        ∀ i, i ∈ reads → i < im.Size) ∧
    ((∀ p, p < im.Data.length → ¬ Qualifies im.Data beacon p) → 0 ∉ beacon →
      beacon.length + 1 ≤ im.Size →
      Occurs im.Data (beacon ++ [0]) (im.Size - (beacon.length + 1)) →
      ∃ r reads,
        RewriteFieldWithBeacon.scanReads im.Data past (beacon ++ [0]) (im.Size + 1) 0 im.Size =
          some (r, reads) ∧
        im.Size ∈ reads) ∧
    (∀ past' : Nat, ∃ r,
      RewriteFieldWithBeacon.scanReads (str "-version" ++ [0, 1] ++ str "-version" ++ [0])
        past' (str "-version" ++ [0]) (19 + 1) 0 19 = some (r, [9, 19])) ∧
    (0 ∉ beacon → (∃ p, p < im.Data.length ∧ Qualifies im.Data beacon p) →
      ∃ p, Qualifies im.Data beacon p ∧
        RewriteFieldWithBeacon.scan im.Data past (beacon ++ [0]) (im.Size + 1) 0 im.Size =
          some (some (p + (beacon.length + 1)))) := by
  have hlen : (beacon ++ [0]).length = beacon.length + 1 := by simp
  refine ⟨?_, ?_, ?_, ?_⟩
  · intro hno hne
    refine ⟨RewriteFieldWithBeacon_unqualified im past beacon repl hno, ?_⟩
    obtain ⟨r, reads, hr⟩ := scanReads_total im.Data past (beacon ++ [0]) (by simp)
      (im.Data.length + 1) 0 (Nat.zero_le _) (by omega)
    rw [Nat.sub_zero] at hr
    unfold ImageInfo_t.Size at hne ⊢
    refine ⟨r, reads, hr, ?_⟩
    intro i hi
    obtain ⟨q, hq, hiq⟩ := scanReads_after_occurrence im.Data past (beacon ++ [0]) _ _ _ _ _
      hr i hi
    have hle := Occurs_le_length hq (by simp)
    rw [hlen] at hle hiq
    by_contra hcon
    have hq' : q = im.Data.length - (beacon.length + 1) := by omega
    rw [hq'] at hq
    exact hne ⟨by omega, hq⟩
  · intro hno hb hL hend
    unfold ImageInfo_t.Size at hL hend ⊢
    have := scanReads_end im.Data past beacon hb hL hend hno (im.Data.length + 1) 0
      (Nat.zero_le _) (by omega)
    rw [Nat.sub_zero] at this
    exact this
  · intro past'
    by_cases hp : isprint past' = true
    · exact ⟨some 19, by
        simp [str, RewriteFieldWithBeacon.scanReads, memmem, memmem.go, isprint, peek]
        simpa [isprint] using hp⟩
    · exact ⟨none, by
        simp [str, RewriteFieldWithBeacon.scanReads, memmem, memmem.go, isprint, peek]
        simpa [isprint] using hp⟩
  · rintro hb ⟨p, _, hp⟩
    have hex : ∃ p, Qualifies im.Data beacon p := ⟨p, hp⟩
    have hmin := Nat.find_spec hex
    have hfirst : ∀ q, q < Nat.find hex → ¬ Qualifies im.Data beacon q :=
      fun q hq => Nat.find_min hex hq
    have := scan_first im.Data past beacon (Nat.find hex) hb hmin hfirst (im.Data.length + 1) 0
      (Nat.zero_le _) (by omega)
    rw [Nat.sub_zero] at this
    exact ⟨Nat.find hex, hmin, this⟩

theorem RewriteFieldWithBeacon_not_found_reads_witness :
    (∃ r reads,
      RewriteFieldWithBeacon.scanReads (str "-version" ++ [0, 1] ++ str "-version" ++ [0]) 7
        (str "-version" ++ [0]) (19 + 1) 0 19 = some (r, reads) ∧ 19 ∈ reads) ∧
    (RewriteFieldWithBeacon ⟨str "-version" ++ [0, 1] ++ str "-version" ++ [0, 5], 0⟩ 7
        (str "-version") (str "3.3") =
        some (DataFailure, ⟨str "-version" ++ [0, 1] ++ str "-version" ++ [0, 5], 0⟩) ∧
      ∃ r reads,
        RewriteFieldWithBeacon.scanReads (str "-version" ++ [0, 1] ++ str "-version" ++ [0, 5]) 7
          (str "-version" ++ [0]) (20 + 1) 0 20 = some (r, reads) ∧
        ∀ i, i ∈ reads → i < 20) :=
  ⟨(RewriteFieldWithBeacon_not_found_reads
      ⟨str "-version" ++ [0, 1] ++ str "-version" ++ [0], 0⟩ 7 (str "-version")
      (str "3.3")).2.1 (by decide) (by decide) (by decide) (by decide),
    (RewriteFieldWithBeacon_not_found_reads
      ⟨str "-version" ++ [0, 1] ++ str "-version" ++ [0, 5], 0⟩ 7 (str "-version")
      (str "3.3")).1 (by decide) (by decide)⟩

/-- C7: when `p` is the lowest index at which `beacon + NUL` occurs followed,
inside the image, by a printable byte (the beacon being a C string, free of NUL),
`RewriteFieldWithBeacon` does exactly what `RewriteField` does with
`area_start = value_start = p + len(beacon) + 1`, the image end as bound and the
replacement string plus its NUL as replacement; no byte before that position,
so none of an earlier rejected occurrence, is changed. -/
theorem RewriteFieldWithBeacon_first (im : ImageInfo_t) (past : Nat) (beacon repl : List Nat)
    (p : Nat) (hb : 0 ∉ beacon) (hq : Qualifies im.Data beacon p)
    (hfirst : ∀ q, q < p → ¬ Qualifies im.Data beacon q) :
    RewriteFieldWithBeacon im past beacon repl =
      some ((RewriteField im.Data past (p + (beacon.length + 1)) (p + (beacon.length + 1))
              im.Size (repl ++ [0])).1,
            { im with Data := (RewriteField im.Data past (p + (beacon.length + 1))
              (p + (beacon.length + 1)) im.Size (repl ++ [0])).2 }) ∧
    ∀ i, i < p + (beacon.length + 1) →
      (RewriteField im.Data past (p + (beacon.length + 1)) (p + (beacon.length + 1))
        im.Size (repl ++ [0])).2[i]? = im.Data[i]? := by
  have hs := scan_first im.Data past beacon p hb hq hfirst (im.Data.length + 1) 0
    (Nat.zero_le _) (by omega)
  rw [Nat.sub_zero] at hs
  constructor
  · unfold RewriteFieldWithBeacon ImageInfo_t.Size
    rw [hs]
  · intro i hi
    exact RewriteField_before_area im.Data past _ _ (repl ++ [0]) (Nat.le_refl _) i hi

theorem RewriteFieldWithBeacon_first_witness :
    RewriteFieldWithBeacon ⟨[66, 0, 1, 66, 0, 65, 0, 0, 0, 66, 0, 67, 0, 0, 9], 0⟩ 7 [66] [52] =
      some (Success, ⟨[66, 0, 1, 66, 0, 52, 0, 0, 0, 66, 0, 67, 0, 0, 9], 0⟩) := by
  have h := (RewriteFieldWithBeacon_first
    ⟨[66, 0, 1, 66, 0, 65, 0, 0, 0, 66, 0, 67, 0, 0, 9], 0⟩ 7 [66] [52] 3
    (by decide) (by decide) (by decide)).1
  rw [h]
  decide

/-- C8: when the leader `name=` of the pair is matched at index `p`, the old
value ends at its first NUL `ve`, the first non-zero byte after it is at `ae`
inside the image, and the span `R = ae - p` is at most 4096 and at least
`len(spec) + 1`, `RewriteVariable` returns `Success`; afterwards the bytes at
`[p, p + len(spec))` are the whole pair, the bytes at `[p + len(spec), p + R)`
are zero, every other byte is unchanged and the length is the same.  Example:
`qt_prfxpath=/opt/qt3` in a 64-byte area patched with `qt_prfxpath=/opt/qt4`
leaves `64 - 20 - 1` zero bytes after the new terminator. -/
theorem RewriteVariable_success (im : ImageInfo_t) (past : Nat) (name value : List Nat)
    (p ve ae : Nat) (hn : 61 ∉ name) (h0 : 0 ∉ name)
    (hfind : RewriteVariable.find im (name ++ [61]) = some p)
    (hv : FirstNul im.Data (p + (name.length + 1)) ve)
    (ha : FirstNonZero im.Data (ve + 1) ae)
    (hR : ae - p ≤ FIELD_RESERVED_AREA_LIMIT)
    (hfit : (name ++ [61] ++ value).length + 1 ≤ ae - p) :
    (∃ im', RewriteVariable im past (name ++ [61] ++ value) = (Success, im') ∧
      im'.Data.length = im.Data.length ∧
      (∀ j, j < (name ++ [61] ++ value).length →
        im'.Data[p + j]? = (name ++ [61] ++ value)[j]?) ∧
      (∀ i, p + (name ++ [61] ++ value).length ≤ i → i < p + (ae - p) →
        im'.Data[i]? = some 0) ∧
      (∀ i, i < p ∨ p + (ae - p) ≤ i → im'.Data[i]? = im.Data[i]?)) ∧
    ∀ past' : Nat,
      RewriteVariable
          ⟨str "qt_prfxpath=/opt/qt3" ++ List.replicate 44 0 ++ str "qt_libspath=/lib" ++ [0, 0, 1],
            0⟩
          past' (str "qt_prfxpath=/opt/qt4") =
        (Success,
          ⟨str "qt_prfxpath=/opt/qt4" ++ [0] ++ List.replicate (64 - 20 - 1) 0 ++
            str "qt_libspath=/lib" ++ [0, 0, 1], 0⟩) := by
  constructor
  · have hve : p + (name.length + 1) ≤ ve := hv.1
    have hae : ve + 1 ≤ ae := ha.1
    have hlen : ae < im.Data.length := ha.2.1
    have hl : (name ++ [61] ++ value ++ [0]).length = (name ++ [61] ++ value).length + 1 := by
      rw [List.length_append]; rfl
    have hfit' : (name ++ [61] ++ value ++ [0]).length ≤ ae - p := by omega
    rw [RewriteVariable_pair im past name value hn h0, hfind]
    dsimp only
    unfold ImageInfo_t.Size
    rw [RewriteField_resolved im.Data past p _ (name ++ [61] ++ value ++ [0]) ve ae (by omega)
      hv ha, if_pos ⟨hR, hfit'⟩]
    refine ⟨_, rfl, ?_, ?_, ?_, ?_⟩
    · exact length_written im.Data p (ae - p) _ (by omega) hfit'
    · intro j hj
      show (memset _ _ _ _)[p + j]? = _
      rw [getElem?_written im.Data p (ae - p) _ (p + j) (by omega) hfit', if_neg (by omega),
        if_pos (by omega), Nat.add_sub_cancel_left, List.getElem?_append_left hj]
    · intro i hi1 hi2
      show (memset _ _ _ _)[i]? = _
      rw [getElem?_written im.Data p (ae - p) _ i (by omega) hfit', if_neg (by omega)]
      by_cases hi : i < p + (name ++ [61] ++ value ++ [0]).length
      · rw [if_pos hi, List.getElem?_append_right (by omega)]
        have : i - p - (name ++ [61] ++ value).length = 0 := by omega
        rw [this]
        rfl
      · rw [if_neg hi, if_pos (by omega)]
    · intro i hi
      show (memset _ _ _ _)[i]? = _
      rw [getElem?_written im.Data p (ae - p) _ i (by omega) hfit']
      rcases hi with hi | hi
      · rw [if_pos hi]
      · rw [if_neg (by omega), if_neg (by omega), if_neg (by omega)]
  · intro past'
    simp [RewriteVariable, RewriteVariable.find, strchr, str, ImageInfo_t.Size, memmem,
      memmem.go, peek, RewriteField, memchr, memchr.go, sizeDiff, FIELD_RESERVED_AREA_LIMIT,
      FindNonZeroByte, FindNonZeroByte.go, memcpy, memset, SIZE_MAX]



theorem RewriteVariable_success_witness :
    ∃ im', RewriteVariable ⟨[7, 113, 61, 51, 0, 0, 0, 9], 0⟩ 9 ([113] ++ [61] ++ [52]) =
        (Success, im') ∧
      im'.Data.length = ([7, 113, 61, 51, 0, 0, 0, 9] : List Nat).length ∧
      (∀ j, j < ([113] ++ [61] ++ [52] : List Nat).length →
        im'.Data[1 + j]? = ([113] ++ [61] ++ [52] : List Nat)[j]?) ∧
      (∀ i, 1 + ([113] ++ [61] ++ [52] : List Nat).length ≤ i → i < 1 + (7 - 1) →
        im'.Data[i]? = some 0) ∧
      (∀ i, i < 1 ∨ 1 + (7 - 1) ≤ i →
        im'.Data[i]? = ([7, 113, 61, 51, 0, 0, 0, 9] : List Nat)[i]?) :=
  (RewriteVariable_success ⟨[7, 113, 61, 51, 0, 0, 0, 9], 0⟩ 9 [113] [52] 1 4 7
    (by decide) (by decide) (by decide) (by decide) (by decide) (by decide) (by decide)).1

/-- C9: for a pair `name=value` and a cached `Offset ≤ Size`, the leader match
used by `RewriteVariable` is the first occurrence of the leader bytes at or
after `Offset` if there is one, otherwise the first occurrence in the whole
image; the field rewrite is made at that match; and the leader is reported as
not found (`DataFailure`, image unchanged) exactly when it occurs nowhere. -/
theorem RewriteVariable_leader_match (im : ImageInfo_t) (past : Nat) (name value : List Nat)
    (hn : 61 ∉ name) (h0 : 0 ∉ name) (_hoff : im.Offset ≤ im.Size) :
    (∀ p, im.Offset ≤ p → Occurs im.Data (name ++ [61]) p →
      (∀ q, im.Offset ≤ q → q < p → ¬ Occurs im.Data (name ++ [61]) q) →
      RewriteVariable.find im (name ++ [61]) = some p) ∧
    ((∀ q, im.Offset ≤ q → q < im.Size → ¬ Occurs im.Data (name ++ [61]) q) →
      ∀ p, Occurs im.Data (name ++ [61]) p →
        (∀ q, q < p → ¬ Occurs im.Data (name ++ [61]) q) →
        RewriteVariable.find im (name ++ [61]) = some p) ∧
    (∀ p, RewriteVariable.find im (name ++ [61]) = some p →
      (RewriteVariable im past (name ++ [61] ++ value)).1 =
          (RewriteField im.Data past p (p + (name.length + 1)) im.Size
            (name ++ [61] ++ value ++ [0])).1 ∧
        (RewriteVariable im past (name ++ [61] ++ value)).2.Data =
          (RewriteField im.Data past p (p + (name.length + 1)) im.Size
            (name ++ [61] ++ value ++ [0])).2) ∧
    (RewriteVariable.find im (name ++ [61]) = none ↔
      ∀ q, ¬ Occurs im.Data (name ++ [61]) q) ∧
    (RewriteVariable.find im (name ++ [61]) = none →
      RewriteVariable im past (name ++ [61] ++ value) = (DataFailure, im)) := by
  refine ⟨?_, ?_, ?_, ?_, ?_⟩
  · intro p h1 h2 h3
    exact find_of_after im _ p h1 h2 h3
  · intro h1 p h2 h3
    refine find_of_before im _ p (fun q hq ho => h1 q hq ?_ ho) h2 h3
    have := Occurs_le_length ho (by simp)
    rw [List.length_append] at this
    unfold ImageInfo_t.Size
    simp only [List.length_singleton] at this
    omega
  · intro p hp
    rw [RewriteVariable_pair im past name value hn h0, hp]
    exact ⟨rfl, rfl⟩
  · exact find_eq_none im _
  · intro h
    rw [RewriteVariable_pair im past name value hn h0, h]

theorem RewriteVariable_leader_match_witness :
    RewriteVariable.find ⟨[113, 61, 65, 0, 7, 8, 9, 10], 5⟩ ([113] ++ [61]) = some 0 :=
  (RewriteVariable_leader_match ⟨[113, 61, 65, 0, 7, 8, 9, 10], 5⟩ 9 [113] [52]
    (by decide) (by decide) (by decide)).2.1 (by decide) 0 (by decide) (by decide)

/-- C10: for a non-empty version string (a C string, free of NUL),
`RewriteVersion` returns, and it returns `BadConfig` if and only if the major
component is not exactly `3`, `4` or `5`; whenever it returns `BadConfig` the
image is unchanged.  In particular `1`, `2`, `2.3`, `10.0`, `33` and `.5` all
yield `BadConfig`. -/
theorem RewriteVersion_badconfig (im : ImageInfo_t) (past : Nat) (ver : List Nat)
    (hne : ver ≠ []) (h0 : 0 ∉ ver) :
    (∃ rc im', RewriteVersion im past ver = some (rc, im') ∧
      (rc = BadConfig ↔
        major ver ≠ str "3" ∧ major ver ≠ str "4" ∧ major ver ≠ str "5") ∧
      (rc = BadConfig → im' = im)) ∧
    ∀ v, v ∈ [str "1", str "2", str "2.3", str "10.0", str "33", str ".5"] →
      RewriteVersion im past v = some (BadConfig, im) := by
  constructor
  · have hhead : ¬ ver.headD 0 = 0 := by
      cases ver with
      | nil => exact absurd rfl hne
      | cons x t => exact fun h => h0 (by simp at h; simp [h])
    have e1 := strncmp_major ver 49 h0 (by decide)
    have e2 := strncmp_major ver 50 h0 (by decide)
    have e3 := strncmp_major ver 51 h0 (by decide)
    have e4 := strncmp_major ver 52 h0 (by decide)
    have e5 := strncmp_major ver 53 h0 (by decide)
    have s3 : str "3" = [51] := rfl
    have s4 : str "4" = [52] := rfl
    have s5 : str "5" = [53] := rfl
    unfold RewriteVersion
    rw [if_neg hhead]
    dsimp only
    rw [strchrnul_major ver h0]
    by_cases h12 : strncmp ver (str "1") (major ver).length = 0 ∨
        strncmp ver (str "2") (major ver).length = 0
    · rw [if_pos h12]
      refine ⟨BadConfig, im, rfl, ⟨fun _ => ?_, fun _ => rfl⟩, fun _ => rfl⟩
      rcases h12 with h | h
      · rcases e1.mp h with hm | hm <;> rw [hm] <;> decide
      · rcases e2.mp h with hm | hm <;> rw [hm] <;> decide
    · rw [if_neg h12]
      have hnil : major ver ≠ [] := fun h => h12 (Or.inl (e1.mpr (Or.inl h)))
      by_cases h3 : strncmp ver (str "3") (major ver).length = 0
      · rw [if_pos h3]
        have hm : major ver = [51] := (e3.mp h3).resolve_left hnil
        obtain ⟨rc, data, hr, hcode⟩ := RewriteFieldWithBeacon_total im past (str "-version") ver
        refine ⟨rc, _, hr, ⟨fun h => ?_, fun h => ?_⟩, fun h => ?_⟩
        · rcases hcode with hc | hc
          · rw [hc] at h; exact absurd h (by decide)
          · rw [hc.1] at h; exact absurd h (by decide)
        · exact absurd (hm.trans s3.symm) h.1
        · rcases hcode with hc | hc
          · rw [hc] at h; exact absurd h (by decide)
          · rw [hc.1] at h; exact absurd h (by decide)
      · rw [if_neg h3]
        have hn3 : major ver ≠ str "3" := fun h => h3 (e3.mpr (Or.inr (h.trans s3)))
        by_cases h4 : strncmp ver (str "4") (major ver).length = 0
        · rw [if_pos h4]
          have hm : major ver = [52] := (e4.mp h4).resolve_left hnil
          obtain ⟨rc1, d1, hr1, _⟩ := RewriteFieldWithBeacon_total im past (str "-version") ver
          obtain ⟨rc2, d2, hr2, _⟩ :=
            RewriteFieldWithBeacon_total { im with Data := d1 } past (str "QT_VERSION") ver
          rw [hr1]
          dsimp only
          rw [hr2]
          dsimp only
          by_cases hs : rc1 = Success ∨ rc2 = Success
          · rw [if_pos hs]
            exact ⟨Success, _, rfl, ⟨fun h => absurd h (by decide),
              fun h => absurd (hm.trans s4.symm) h.2.1⟩, fun h => absurd h (by decide)⟩
          · rw [if_neg hs]
            exact ⟨DataFailure, _, rfl, ⟨fun h => absurd h (by decide),
              fun h => absurd (hm.trans s4.symm) h.2.1⟩, fun h => absurd h (by decide)⟩
        · rw [if_neg h4]
          have hn4 : major ver ≠ str "4" := fun h => h4 (e4.mpr (Or.inr (h.trans s4)))
          by_cases h5 : strncmp ver (str "5") (major ver).length = 0
          · rw [if_pos h5]
            have hm : major ver = [53] := (e5.mp h5).resolve_left hnil
            obtain ⟨rc1, d1, hr1, _⟩ :=
              RewriteFieldWithBeacon_total im past (str "--version") ver
            obtain ⟨rc2, d2, hr2, _⟩ :=
              RewriteFieldWithBeacon_total { im with Data := d1 } past (str "QMAKE_VERSION") ver
            obtain ⟨rc3, d3, hr3, _⟩ :=
              RewriteFieldWithBeacon_total { im with Data := d2 } past (str ") (Qt ") ver
            rw [hr1]
            dsimp only
            rw [hr2]
            dsimp only
            rw [hr3]
            dsimp only
            by_cases hs : rc1 = Success ∨ rc2 = Success ∨ rc3 = Success
            · rw [if_pos hs]
              exact ⟨Success, _, rfl, ⟨fun h => absurd h (by decide),
                fun h => absurd (hm.trans s5.symm) h.2.2⟩, fun h => absurd h (by decide)⟩
            · rw [if_neg hs]
              exact ⟨DataFailure, _, rfl, ⟨fun h => absurd h (by decide),
                fun h => absurd (hm.trans s5.symm) h.2.2⟩, fun h => absurd h (by decide)⟩
          · rw [if_neg h5]
            have hn5 : major ver ≠ str "5" := fun h => h5 (e5.mpr (Or.inr (h.trans s5)))
            exact ⟨BadConfig, im, rfl, ⟨fun _ => ⟨hn3, hn4, hn5⟩, fun _ => rfl⟩, fun _ => rfl⟩
  · intro v hv
    simp only [List.mem_cons, List.mem_singleton, List.not_mem_nil, or_false] at hv
    rcases hv with h | h | h | h | h | h <;> subst h <;>
      simp [RewriteVersion, str, strchrnul, strncmp]

theorem RewriteVersion_badconfig_witness :
    ∃ rc im', RewriteVersion ⟨[45, 0, 65, 0, 0, 9], 0⟩ 7 (str "10.0") = some (rc, im') ∧
      (rc = BadConfig ↔
        major (str "10.0") ≠ str "3" ∧ major (str "10.0") ≠ str "4" ∧
          major (str "10.0") ≠ str "5") ∧
      (rc = BadConfig → im' = ⟨[45, 0, 65, 0, 0, 9], 0⟩) :=
  (RewriteVersion_badconfig ⟨[45, 0, 65, 0, 0, 9], 0⟩ 7 (str "10.0") (by decide) (by decide)).1


/-- C11: for a version whose major component is `4` (a C string, free of NUL),
`RewriteVersion` attempts `RewriteFieldWithBeacon` for `-version` and then, on
the image left by it, for `QT_VERSION`; both attempts return, and the result is
`Success` if at least one attempt returned `Success`, otherwise `DataFailure`
with the image unchanged.  An image holding a large enough `QT_VERSION` field
and no `-version` beacon yields `Success`. -/
theorem RewriteVersion_major_four (im : ImageInfo_t) (past : Nat) (ver : List Nat)
    (h0 : 0 ∉ ver) (hm : major ver = str "4") :
    (∃ rc1 im1 rc2 im2,
      RewriteFieldWithBeacon im past (str "-version") ver = some (rc1, im1) ∧
      RewriteFieldWithBeacon im1 past (str "QT_VERSION") ver = some (rc2, im2) ∧
      RewriteVersion im past ver =
        some (if rc1 = Success ∨ rc2 = Success then Success else DataFailure, im2) ∧
      (¬ (rc1 = Success ∨ rc2 = Success) → im2 = im)) ∧
    ∀ past' off : Nat,
      RewriteVersion
          ⟨str "QT_VERSION" ++ [0] ++ str "4.8.1" ++ [0, 0, 0, 0, 0, 0, 0, 2], off⟩ past'
          (str "4.8.4") =
        some (Success,
          ⟨str "QT_VERSION" ++ [0] ++ str "4.8.4" ++ [0, 0, 0, 0, 0, 0, 0, 2], off⟩) := by
  constructor
  · have s4 : str "4" = [52] := rfl
    rw [s4] at hm
    have hhead : ¬ ver.headD 0 = 0 := by
      cases ver with
      | nil => simp [major] at hm
      | cons x t => exact fun h => h0 (by simp at h; simp [h])
    have e1 := strncmp_major ver 49 h0 (by decide)
    have e2 := strncmp_major ver 50 h0 (by decide)
    have e3 := strncmp_major ver 51 h0 (by decide)
    have e4 := strncmp_major ver 52 h0 (by decide)
    have n12 : ¬ (strncmp ver (str "1") (major ver).length = 0 ∨
        strncmp ver (str "2") (major ver).length = 0) := by
      rintro (h | h)
      · rcases e1.mp h with h' | h' <;> rw [hm] at h' <;> simp at h'
      · rcases e2.mp h with h' | h' <;> rw [hm] at h' <;> simp at h'
    have n3 : ¬ strncmp ver (str "3") (major ver).length = 0 := by
      intro h
      rcases e3.mp h with h' | h' <;> rw [hm] at h' <;> simp at h'
    have y4 : strncmp ver (str "4") (major ver).length = 0 := e4.mpr (Or.inr hm)
    obtain ⟨rc1, d1, hr1, hc1⟩ := RewriteFieldWithBeacon_total im past (str "-version") ver
    obtain ⟨rc2, d2, hr2, hc2⟩ :=
      RewriteFieldWithBeacon_total { im with Data := d1 } past (str "QT_VERSION") ver
    refine ⟨rc1, _, rc2, _, hr1, hr2, ?_, ?_⟩
    · unfold RewriteVersion
      rw [if_neg hhead]
      dsimp only
      rw [strchrnul_major ver h0, if_neg n12, if_neg n3, if_pos y4, hr1]
      dsimp only
      rw [hr2]
      dsimp only
      split_ifs <;> rfl
    · intro hno
      have f1 : rc1 ≠ Success := fun h => hno (Or.inl h)
      have f2 : rc2 ≠ Success := fun h => hno (Or.inr h)
      have g1 := (hc1.resolve_left f1).2
      have g2 := (hc2.resolve_left f2).2
      dsimp only at g2
      rw [g2, g1]
  · intro past' off
    simp [RewriteVersion, strchrnul, strncmp, RewriteFieldWithBeacon, str, ImageInfo_t.Size,
      RewriteFieldWithBeacon.scan, memmem, memmem.go, isprint, peek, RewriteField, memchr,
      memchr.go, sizeDiff, FIELD_RESERVED_AREA_LIMIT, FindNonZeroByte, FindNonZeroByte.go,
      memcpy, memset]

theorem RewriteVersion_major_four_witness :
    ∃ rc1 im1 rc2 im2,
      RewriteFieldWithBeacon ⟨[45, 0, 65, 0, 0, 9], 0⟩ 7 (str "-version") (str "4.8") =
        some (rc1, im1) ∧
      RewriteFieldWithBeacon im1 7 (str "QT_VERSION") (str "4.8") = some (rc2, im2) ∧
      RewriteVersion ⟨[45, 0, 65, 0, 0, 9], 0⟩ 7 (str "4.8") =
        some (if rc1 = Success ∨ rc2 = Success then Success else DataFailure, im2) ∧
      (¬ (rc1 = Success ∨ rc2 = Success) → im2 = ⟨[45, 0, 65, 0, 0, 9], 0⟩) :=
  (RewriteVersion_major_four ⟨[45, 0, 65, 0, 0, 9], 0⟩ 7 (str "4.8") (by decide) (by decide)).1

/-- C12: in a run of `PatchQmakeExe` whose `ReadImage` succeeded, if
`RewriteVersion` returns a code other than `Success`, or the variables before
the `k`-th all returned `Success` and the `k`-th `RewriteVariable` returns
another code, the run returns exactly that code; the loop has called
`RewriteVariable` on the variables up to the `k`-th and on no later one and has
left the state of the `k`-th call, `WriteImage` is not called and the bytes of
the file are unchanged.  `WriteImage` is called only when the version step and
every variable returned `Success`, on the image they left; and a run that does
not return has got that far (it stops in the diagnostic after a failed
`fclose`). -/
theorem PatchQmakeExe_fail_fast (io : FileOps) (past : Nat) (file ver : List Nat)
    (specs : List (List Nat)) (im0 : ImageInfo_t)
    (hread : ReadImage io file = (Success, im0)) :
    (∀ rc im1, RewriteVersion im0 past ver = some (rc, im1) → rc ≠ Success →
      PatchQmakeExe io past file ver specs = some ⟨rc, file, [], false⟩) ∧
    (∀ im1 pre spec post imk rc imk',
      RewriteVersion im0 past ver = some (Success, im1) →
      specs = pre ++ spec :: post →
      PatchQmakeExe.vars past im1 pre = (Success, imk, pre) →
      RewriteVariable imk past spec = (rc, imk') → rc ≠ Success →
      PatchQmakeExe.vars past im1 specs = (rc, imk', pre ++ [spec]) ∧
      PatchQmakeExe io past file ver specs = some ⟨rc, file, pre ++ [spec], false⟩) ∧
    (∀ r, PatchQmakeExe io past file ver specs = some r → r.writeBack = true →
      ∃ im1 imn, RewriteVersion im0 past ver = some (Success, im1) ∧
        PatchQmakeExe.vars past im1 specs = (Success, imn, specs) ∧
        WriteImage io imn file = some (r.code, r.file)) ∧
    (PatchQmakeExe io past file ver specs = none →
      io.fclose = false ∧
      ∃ im1 imn, RewriteVersion im0 past ver = some (Success, im1) ∧
        PatchQmakeExe.vars past im1 specs = (Success, imn, specs) ∧
        WriteImage io imn file = none) := by
  have hr1 : (ReadImage io file).1 = Success := by rw [hread]
  have hr2 : (ReadImage io file).2 = im0 := by rw [hread]
  obtain ⟨rcv, imv, hv, _⟩ := RewriteVersion_total im0 past ver
  have hunf : PatchQmakeExe io past file ver specs =
      if rcv ≠ Success then some ⟨rcv, file, [], false⟩
      else if (PatchQmakeExe.vars past imv specs).1 ≠ Success then
        some ⟨(PatchQmakeExe.vars past imv specs).1, file,
          (PatchQmakeExe.vars past imv specs).2.2, false⟩
      else
        match WriteImage io (PatchQmakeExe.vars past imv specs).2.1 file with
        | none => none
        | some (rcWrite, written) =>
          some ⟨rcWrite, written, (PatchQmakeExe.vars past imv specs).2.2, true⟩ := by
    unfold PatchQmakeExe
    rw [if_neg (by rw [hr1]; exact fun h => h rfl), hr2, hv]
  have hall : ∀ (c1 : ¬ rcv ≠ Success) (c2 : ¬ (PatchQmakeExe.vars past imv specs).1 ≠ Success),
      RewriteVersion im0 past ver = some (Success, imv) ∧
      PatchQmakeExe.vars past imv specs =
        (Success, (PatchQmakeExe.vars past imv specs).2.1, specs) := by
    intro c1 c2
    have e1 : rcv = Success := by
      by_contra hc
      exact c1 hc
    have e2 : (PatchQmakeExe.vars past imv specs).1 = Success := by
      by_contra hc
      exact c2 hc
    exact ⟨by rw [hv, e1], Prod.ext e2 (Prod.ext rfl (vars_success past specs imv e2))⟩
  refine ⟨?_, ?_, ?_, ?_⟩
  · intro rc im1 h hne
    rw [hv] at h
    simp only [Option.some.injEq, Prod.mk.injEq] at h
    rw [hunf, if_pos (by rw [h.1]; exact hne), h.1]
  · intro im1 pre spec post imk rc imk' h hsp hpre hk hne
    rw [hv] at h
    simp only [Option.some.injEq, Prod.mk.injEq] at h
    have hvars : PatchQmakeExe.vars past imv specs = (rc, imk', pre ++ [spec]) := by
      rw [hsp, vars_append, h.2, hpre]
      simp only [ne_eq, not_true_eq_false, if_false, PatchQmakeExe.vars]
      rw [hk, if_pos hne]
    refine ⟨by rw [← h.2]; exact hvars, ?_⟩
    rw [hunf, if_neg (by rw [h.1]; exact fun h' => h' rfl), hvars, if_pos hne]
  · intro r h hw
    rw [hunf] at h
    split_ifs at h with c1 c2
    · simp only [Option.some.injEq] at h
      rw [← h] at hw
      simp at hw
    · simp only [Option.some.injEq] at h
      rw [← h] at hw
      simp at hw
    · obtain ⟨a1, a2⟩ := hall c1 c2
      cases hwi : WriteImage io (PatchQmakeExe.vars past imv specs).2.1 file with
      | none => rw [hwi] at h; simp at h
      | some x =>
        rw [hwi] at h
        simp only [Option.some.injEq] at h
        refine ⟨imv, _, a1, a2, ?_⟩
        rw [← h]
        exact hwi
  · intro h
    rw [hunf] at h
    split_ifs at h with c1 c2
    obtain ⟨a1, a2⟩ := hall c1 c2
    cases hwi : WriteImage io (PatchQmakeExe.vars past imv specs).2.1 file with
    | some x => rw [hwi] at h; simp at h
    | none =>
      refine ⟨?_, imv, _, a1, a2, hwi⟩
      unfold WriteImage at hwi
      split_ifs at hwi with d1 d2 d3
      simpa using d3

theorem PatchQmakeExe_fail_fast_witness :
    PatchQmakeExe.vars 7 ⟨[113, 61, 65, 0, 0, 5, 114, 61, 66, 0, 3], 0⟩
        [[113, 61, 67], [114, 61, 68, 69, 70], [113, 61, 71]] =
      (DataFailure, ⟨[113, 61, 67, 0, 0, 5, 114, 61, 66, 0, 3], 0⟩,
        [[113, 61, 67]] ++ [[114, 61, 68, 69, 70]]) ∧
    PatchQmakeExe ⟨true, true, true, true, true, true, true, true, []⟩ 7
        [113, 61, 65, 0, 0, 5, 114, 61, 66, 0, 3] []
        [[113, 61, 67], [114, 61, 68, 69, 70], [113, 61, 71]] =
      some ⟨DataFailure, [113, 61, 65, 0, 0, 5, 114, 61, 66, 0, 3],
        [[113, 61, 67]] ++ [[114, 61, 68, 69, 70]], false⟩ :=
  (PatchQmakeExe_fail_fast ⟨true, true, true, true, true, true, true, true, []⟩ 7
    [113, 61, 65, 0, 0, 5, 114, 61, 66, 0, 3] []
    [[113, 61, 67], [114, 61, 68, 69, 70], [113, 61, 71]]
    ⟨[113, 61, 65, 0, 0, 5, 114, 61, 66, 0, 3], 0⟩ (by decide)).2.1
    ⟨[113, 61, 65, 0, 0, 5, 114, 61, 66, 0, 3], 0⟩ [[113, 61, 67]] [114, 61, 68, 69, 70]
    [[113, 61, 71]] ⟨[113, 61, 67, 0, 0, 5, 114, 61, 66, 0, 3], 0⟩ DataFailure
    ⟨[113, 61, 67, 0, 0, 5, 114, 61, 66, 0, 3], 0⟩
    (by decide) (by decide) (by decide) (by decide) (by decide)

/-- C13: `RewriteField` (called with `area_start ≤ value_start`) returns
`Success` only if `area_end - area_start ≤ 4096`; if the distance from
`area_start` to the terminator of the value, or to the first non-zero byte after
the zero padding, exceeds 4096 it returns `DataFailure` and leaves the image
unchanged; a reserved length of exactly 4096 is accepted. -/
theorem RewriteField_limit (img : List Nat) (past a v : Nat) (repl : List Nat) (hav : a ≤ v) :
    (∀ img', RewriteField img past a v img.length repl = (Success, img') →
      ∃ ve ae, FirstNul img v ve ∧ FirstNonZero img (ve + 1) ae ∧
        ae - a ≤ 4096) ∧
    (∀ ve, FirstNul img v ve → ve - a > 4096 →
      RewriteField img past a v img.length repl = (DataFailure, img)) ∧
    (∀ ve ae, FirstNul img v ve → FirstNonZero img (ve + 1) ae → ae - a > 4096 →
      RewriteField img past a v img.length repl = (DataFailure, img)) ∧
    (∀ ve ae, FirstNul img v ve → FirstNonZero img (ve + 1) ae → ae - a = 4096 →
      repl.length ≤ 4096 → (RewriteField img past a v img.length repl).1 = Success) := by
  refine ⟨?_, ?_, ?_, ?_⟩
  · intro img' h
    obtain ⟨ve, ae, h1, h2, h3, _, _⟩ := RewriteField_success_inv img past a v repl img' hav h
    exact ⟨ve, ae, h1, h2, h3⟩
  · intro ve hv hgt
    by_cases hres : ∃ ve ae, FirstNul img v ve ∧ FirstNonZero img (ve + 1) ae
    · obtain ⟨ve', ae, h1, h2⟩ := hres
      have := FirstNul_unique hv h1
      subst this
      have hae : ve + 1 ≤ ae := h2.1
      rw [RewriteField_resolved img past a v repl ve ae hav h1 h2,
        if_neg (by unfold FIELD_RESERVED_AREA_LIMIT; omega)]
    · exact RewriteField_unresolved img past a v repl hres
  · intro ve ae hv ha hgt
    rw [RewriteField_resolved img past a v repl ve ae hav hv ha,
      if_neg (by unfold FIELD_RESERVED_AREA_LIMIT; omega)]
  · intro ve ae hv ha heq hfit
    rw [RewriteField_resolved img past a v repl ve ae hav hv ha,
      if_pos (by unfold FIELD_RESERVED_AREA_LIMIT; omega)]

theorem RewriteField_limit_witness :
    ∃ ve ae, FirstNul [65, 66, 0, 0, 0, 7, 8] 0 ve ∧
      FirstNonZero [65, 66, 0, 0, 0, 7, 8] (ve + 1) ae ∧ ae - 0 ≤ 4096 :=
  (RewriteField_limit [65, 66, 0, 0, 0, 7, 8] 9 0 0 [67, 0] (by decide)).1
    [67, 0, 0, 0, 0, 7, 8] (by decide)

/-- C14: `RewriteVersion` called with the empty version string returns `Success`
and leaves the image unchanged, whatever the image holds. -/
theorem RewriteVersion_empty (im : ImageInfo_t) (past : Nat) :
    RewriteVersion im past [] = some (Success, im) := by
  unfold RewriteVersion
  rw [if_pos (by rfl)]

/-- C15: when a call of `RewriteField` with `area_start ≤ value_start ≤ image end`
passes the boundary resolution with the positions `ve` and `ae`, then
`area_start ≤ value_start ≤ ve < ae < image end`, `ve` is the least index from
`value_start` on that holds a zero byte and `ae` the least index after `ve` that
holds a non-zero byte; every byte strictly between them is zero before the
rewrite, and the byte at `ae` is non-zero and the same after the rewrite. -/
theorem RewriteField_resolve_order (img : List Nat) (past a v : Nat) (repl : List Nat)
    (ve ae : Nat) (hav : a ≤ v) (_hv : v ≤ img.length)
    (hres : RewriteField.resolve img past a v img.length = some (ve, ae)) :
    a ≤ v ∧ v ≤ ve ∧ ve < ae ∧ ae < img.length ∧
    FirstNul img v ve ∧ FirstNonZero img (ve + 1) ae ∧
    (∀ j, ve < j → j < ae → img[j]? = some 0) ∧
    img[ae]? ≠ some 0 ∧
    (RewriteField img past a v img.length repl).2[ae]? = img[ae]? := by
  obtain ⟨h1, h2, h3⟩ := resolve_some img past a v ve ae hav hres
  have hve : v ≤ ve := h1.1
  have hae : ve + 1 ≤ ae := h2.1
  have hlen : ae < img.length := h2.2.1
  refine ⟨hav, hve, by omega, hlen, h1, h2, fun j hj1 hj2 => h2.2.2.2 j (by omega) hj2,
    h2.2.2.1, ?_⟩
  rw [RewriteField_resolved img past a v repl ve ae hav h1 h2]
  split
  · next hc =>
    show (memset _ _ _ _)[ae]? = _
    rw [getElem?_written img a (ae - a) repl ae (by omega) hc.2, if_neg (by omega),
      if_neg (by omega), if_neg (by omega)]
  · rfl

theorem RewriteField_resolve_order_witness :
    1 ≤ 1 ∧ 1 ≤ 4 ∧ 4 < 7 ∧ 7 < ([1, 65, 66, 67, 0, 0, 0, 7] : List Nat).length ∧
    FirstNul [1, 65, 66, 67, 0, 0, 0, 7] 1 4 ∧
    FirstNonZero [1, 65, 66, 67, 0, 0, 0, 7] (4 + 1) 7 ∧
    (∀ j, 4 < j → j < 7 → ([1, 65, 66, 67, 0, 0, 0, 7] : List Nat)[j]? = some 0) ∧
    ([1, 65, 66, 67, 0, 0, 0, 7] : List Nat)[7]? ≠ some 0 ∧
    (RewriteField [1, 65, 66, 67, 0, 0, 0, 7] 9 1 1
        ([1, 65, 66, 67, 0, 0, 0, 7] : List Nat).length [88, 89, 0]).2[7]? =
      ([1, 65, 66, 67, 0, 0, 0, 7] : List Nat)[7]? :=
  RewriteField_resolve_order [1, 65, 66, 67, 0, 0, 0, 7] 9 1 1 [88, 89, 0] 4 7
    (by decide) (by decide) (by decide)

/-- C16, the claim as stated fails: on the image `\x07 q=3 \0\0\0 \x09` with the
pair `q=4` the leader is matched at index 1, and the effect of `RewriteVariable`
is that of `RewriteField` with area start 1 and value start 3, not that of
`RewriteField` with both at 3 (which would leave `q=q=4` in the image). -/
theorem RewriteVariable_area_start_counterexample :
    RewriteVariable.find ⟨[7, 113, 61, 51, 0, 0, 0, 9], 0⟩ (str "q=") = some 1 ∧
    (RewriteVariable ⟨[7, 113, 61, 51, 0, 0, 0, 9], 0⟩ 9 (str "q=4")).2.Data =
      (RewriteField [7, 113, 61, 51, 0, 0, 0, 9] 9 1 3 8 (str "q=4" ++ [0])).2 ∧
    (RewriteVariable ⟨[7, 113, 61, 51, 0, 0, 0, 9], 0⟩ 9 (str "q=4")).2.Data ≠
      (RewriteField [7, 113, 61, 51, 0, 0, 0, 9] 9 3 3 8 (str "q=4" ++ [0])).2 ∧
    (RewriteVariable ⟨[7, 113, 61, 51, 0, 0, 0, 9], 0⟩ 9 (str "q=4")).2.Data =
      [7, 113, 61, 52, 0, 0, 0, 9] ∧
    (RewriteField [7, 113, 61, 51, 0, 0, 0, 9] 9 3 3 8 (str "q=4" ++ [0])).2 =
      [7, 113, 61, 113, 61, 52, 0, 9] := by
  decide

/-- C16 as amended: for every leader match of `RewriteVariable` at index `p`, the
area start handed to `RewriteField` is `p`, the first byte of the leader, and
the value start is `p + len(name=)`, right after the leader; the replacement is
the whole pair plus its NUL, so on `Success` the pair is written starting at the
leader. -/
theorem RewriteVariable_area_start (im : ImageInfo_t) (past : Nat) (name value : List Nat)
    (p : Nat) (hn : 61 ∉ name) (h0 : 0 ∉ name)
    (hfind : RewriteVariable.find im (name ++ [61]) = some p) :
    (RewriteVariable im past (name ++ [61] ++ value)).1 =
      (RewriteField im.Data past p (p + (name.length + 1)) im.Size
        (name ++ [61] ++ value ++ [0])).1 ∧
    (RewriteVariable im past (name ++ [61] ++ value)).2.Data =
      (RewriteField im.Data past p (p + (name.length + 1)) im.Size
        (name ++ [61] ++ value ++ [0])).2 ∧
    ((RewriteVariable im past (name ++ [61] ++ value)).1 = Success →
      ∀ j, j < (name ++ [61] ++ value).length →
        (RewriteVariable im past (name ++ [61] ++ value)).2.Data[p + j]? =
          (name ++ [61] ++ value)[j]?) := by
  rw [RewriteVariable_pair im past name value hn h0, hfind]
  dsimp only
  refine ⟨rfl, rfl, ?_⟩
  intro hs j hj
  unfold ImageInfo_t.Size at hs ⊢
  obtain ⟨ve, ae, h1, h2, _, h4, h5⟩ :=
    RewriteField_success_inv im.Data past p (p + (name.length + 1))
      (name ++ [61] ++ value ++ [0]) _ (by omega) (Prod.ext hs rfl)
  have hve : p + (name.length + 1) ≤ ve := h1.1
  have hae : ve + 1 ≤ ae := h2.1
  have hlen : ae < im.Data.length := h2.2.1
  have hl : (name ++ [61] ++ value ++ [0]).length = (name ++ [61] ++ value).length + 1 := by
    rw [List.length_append]; rfl
  refine Eq.trans (congrArg (fun l : List Nat => l[p + j]?) h5) ?_
  show (memset _ _ _ _)[p + j]? = _
  rw [getElem?_written im.Data p (ae - p) _ (p + j) (by omega) h4, if_neg (by omega),
    if_pos (by omega), Nat.add_sub_cancel_left, List.getElem?_append_left hj]

theorem RewriteVariable_area_start_witness :
    (RewriteVariable ⟨[7, 113, 61, 51, 0, 0, 0, 9], 0⟩ 9 ([113] ++ [61] ++ [52])).2.Data =
      (RewriteField [7, 113, 61, 51, 0, 0, 0, 9] 9 1 (1 + (1 + 1)) 8
        ([113] ++ [61] ++ [52] ++ [0])).2 :=
  (RewriteVariable_area_start ⟨[7, 113, 61, 51, 0, 0, 0, 9], 0⟩ 9 [113] [52] 1
    (by decide) (by decide) (by decide)).2.1

/-- C17: when `RewriteVariable` matches the leader at index `p` in an image of at
most `SIZE_MAX` bytes, the value `p AND NOT 0xFFFF` is `r = p - p mod 65536`, and
the cached offset afterwards is `r` if the old offset was `0` or `r` is below
it, and the old offset otherwise, whatever the field rewrite returns.  Hence,
from a state with offset `0`, after any sequence of `RewriteVariable` calls the
size is the same, the offset is a multiple of 65536, does not exceed the size
(so `Size - Offset` never underflows) and is below the size of every non-empty
image (`ReadImage` refuses the empty one); and a call never raises a non-zero
offset. -/
theorem RewriteVariable_offset (im : ImageInfo_t) (past : Nat) (name value : List Nat)
    (p : Nat) (hn : 61 ∉ name) (h0 : 0 ∉ name) (hmax : im.Size ≤ SIZE_MAX)
    (hfind : RewriteVariable.find im (name ++ [61]) = some p) :
    p &&& (SIZE_MAX ^^^ 0xFFFF) = p - p % 65536 ∧
    (RewriteVariable im past (name ++ [61] ++ value)).2.Offset =
      (if im.Offset = 0 ∨ p - p % 65536 < im.Offset then p - p % 65536 else im.Offset) ∧
    (∀ (st : ImageInfo_t) (past' : Nat) (specs : List (List Nat)),
      st.Offset = 0 → st.Size ≤ SIZE_MAX →
      (afterVariables past' st specs).Size = st.Size ∧
      (afterVariables past' st specs).Offset % 65536 = 0 ∧
      (afterVariables past' st specs).Offset ≤ (afterVariables past' st specs).Size ∧
      (0 < st.Size →
        (afterVariables past' st specs).Offset < (afterVariables past' st specs).Size)) ∧
    (∀ (st : ImageInfo_t) (past' : Nat) (spec : List Nat),
      st.Offset ≠ 0 → (RewriteVariable st past' spec).2.Offset ≤ st.Offset) := by
  have hocc := (find_some im _ p hfind).1
  have hple := Occurs_le_length hocc (by simp)
  have hp : p < 2 ^ 64 := by
    unfold ImageInfo_t.Size SIZE_MAX at hmax
    simp only [List.length_append, List.length_singleton] at hple
    omega
  have hmask := and_mask p hp
  refine ⟨hmask, ?_, ?_, ?_⟩
  · rw [RewriteVariable_pair im past name value hn h0, hfind]
    dsimp only
    rw [hmask]
    by_cases c : im.Offset = 0 ∨ p - p % 65536 < im.Offset
    · rw [if_pos c, if_pos (Or.comm.mp c)]
    · rw [if_neg c, if_neg (fun h => c (Or.comm.mp h))]
  · intro st past' specs hz hsz
    obtain ⟨i1, i2, i3, i4⟩ := afterVariables_inv past' specs st hsz (by rw [hz])
      (by rw [hz]; exact Nat.zero_le _) (by rw [hz]; exact fun h => h)
    rw [i1]
    exact ⟨rfl, i2, i3, i4⟩
  · intro st past' spec hnz
    rcases RewriteVariable_state st past' spec with he | ⟨q, _, _, ho⟩
    · rw [he]
    · rw [ho]
      split_ifs with c
      · rcases c with c | c
        · exact Nat.le_of_lt c
        · exact absurd c hnz
      · exact Nat.le_refl _

theorem RewriteVariable_offset_witness :
    (5 : Nat) &&& (SIZE_MAX ^^^ 0xFFFF) = 5 - 5 % 65536 ∧
    (RewriteVariable ⟨[7, 8, 9, 1, 2, 113, 61, 51, 0, 0, 0, 9], 0⟩ 9
        ([113] ++ [61] ++ [52])).2.Offset =
      (if (0 : Nat) = 0 ∨ 5 - 5 % 65536 < 0 then 5 - 5 % 65536 else 0) :=
  ⟨(RewriteVariable_offset ⟨[7, 8, 9, 1, 2, 113, 61, 51, 0, 0, 0, 9], 0⟩ 9 [113] [52] 5
      (by decide) (by decide) (by decide) (by decide)).1,
    (RewriteVariable_offset ⟨[7, 8, 9, 1, 2, 113, 61, 51, 0, 0, 0, 9], 0⟩ 9 [113] [52] 5
      (by decide) (by decide) (by decide) (by decide)).2.1⟩

/-- C18, what the code does: when `beacon + NUL` (the beacon a C string, free of
NUL) ends exactly at the image end and no occurrence is followed inside the
image by a printable byte, the scan of `RewriteFieldWithBeacon` ends, and the
call returns `DataFailure` with the image unchanged, but the printability test
has read the byte at index `Size`, which lies outside the image. -/
theorem RewriteFieldWithBeacon_reads_outside (im : ImageInfo_t) (past : Nat)
    (beacon repl : List Nat) (hb : 0 ∉ beacon)
    (hL : beacon.length + 1 ≤ im.Size)
    (hend : Occurs im.Data (beacon ++ [0]) (im.Size - (beacon.length + 1)))
    (hno : ∀ q, q < im.Size → ¬ Qualifies im.Data beacon q) :
    RewriteFieldWithBeacon im past beacon repl = some (DataFailure, im) ∧
    ∃ r reads,
      RewriteFieldWithBeacon.scanReads im.Data past (beacon ++ [0]) (im.Size + 1) 0 im.Size =
        some (r, reads) ∧
      im.Size ∈ reads := by
  unfold ImageInfo_t.Size at hL hend hno ⊢
  refine ⟨RewriteFieldWithBeacon_unqualified im past beacon repl hno, ?_⟩
  have := scanReads_end im.Data past beacon hb hL hend hno (im.Data.length + 1) 0
    (Nat.zero_le _) (by omega)
  rw [Nat.sub_zero] at this
  exact this

theorem RewriteFieldWithBeacon_reads_outside_witness :
    RewriteFieldWithBeacon ⟨str "-version" ++ [0], 0⟩ 65 (str "-version") (str "4.8.4") =
      some (DataFailure, ⟨str "-version" ++ [0], 0⟩) ∧
    ∃ r reads,
      RewriteFieldWithBeacon.scanReads (str "-version" ++ [0]) 65 (str "-version" ++ [0])
        (9 + 1) 0 9 = some (r, reads) ∧
      9 ∈ reads :=
  RewriteFieldWithBeacon_reads_outside ⟨str "-version" ++ [0], 0⟩ 65 (str "-version")
    (str "4.8.4") (by decide) (by decide) (by decide) (by decide)

/-- C19, the claim as stated fails: in the image of 65542 bytes that holds
`q=A\0\0\x01` at index 0 and `q=B\0\0\x01` at index 65536, with 65530 bytes `\x01`
between them, `RewriteVariable` for the pair `q=Z` run with the cached offset
65536 (which does not exceed the size) does not leave the same bytes as the run
with the offset 0: the byte at index 2 is `A` after the first and `Z` after the
second. -/
theorem RewriteVariable_cache_counterexample :
    (65536 : Nat) ≤
      ([113, 61, 65, 0, 0, 1] ++ List.replicate 65530 1 ++ [113, 61, 66, 0, 0, 1]).length ∧
    ¬ ((RewriteVariable
          ⟨[113, 61, 65, 0, 0, 1] ++ List.replicate 65530 1 ++ [113, 61, 66, 0, 0, 1], 65536⟩ 0
          ([113] ++ [61] ++ [90])).1 =
        (RewriteVariable
          ⟨[113, 61, 65, 0, 0, 1] ++ List.replicate 65530 1 ++ [113, 61, 66, 0, 0, 1], 0⟩ 0
          ([113] ++ [61] ++ [90])).1 ∧
      (RewriteVariable
          ⟨[113, 61, 65, 0, 0, 1] ++ List.replicate 65530 1 ++ [113, 61, 66, 0, 0, 1], 65536⟩ 0
          ([113] ++ [61] ++ [90])).2.Data =
        (RewriteVariable
          ⟨[113, 61, 65, 0, 0, 1] ++ List.replicate 65530 1 ++ [113, 61, 66, 0, 0, 1], 0⟩ 0
          ([113] ++ [61] ++ [90])).2.Data) := by
  have hl : (List.replicate 65530 1 : List Nat).length = 65530 := List.length_replicate _ _
  refine ⟨?_, ?_⟩
  · rw [List.length_append, List.length_append, hl]
    decide
  · rintro ⟨_, hd⟩
    obtain ⟨h1, h2⟩ := two_occurrences (List.replicate 65530 1) 0 65536 (by rw [hl])
    rw [hd, h2] at h1
    exact absurd h1 (by decide)

/-- C19 as amended: for a pair `name=value` and a cached `Offset ≤ Size`,
`RewriteVariable` returns the same code and leaves the same image bytes as with
`Offset = 0`, provided the leader does not occur on both sides of the offset:
no occurrence starts at or after `Offset`, or none starts before it. -/
theorem RewriteVariable_cache_hint (im : ImageInfo_t) (past : Nat) (name value : List Nat)
    (hn : 61 ∉ name) (h0 : 0 ∉ name) (_hoff : im.Offset ≤ im.Size)
    (hside : (∀ q, im.Offset ≤ q → q < im.Size → ¬ Occurs im.Data (name ++ [61]) q) ∨
      (∀ q, q < im.Offset → ¬ Occurs im.Data (name ++ [61]) q)) :
    (RewriteVariable im past (name ++ [61] ++ value)).1 =
      (RewriteVariable ⟨im.Data, 0⟩ past (name ++ [61] ++ value)).1 ∧
    (RewriteVariable im past (name ++ [61] ++ value)).2.Data =
      (RewriteVariable ⟨im.Data, 0⟩ past (name ++ [61] ++ value)).2.Data := by
  have hf := find_hint im (name ++ [61]) (by simp) hside
  cases hz : RewriteVariable.find ⟨im.Data, 0⟩ (name ++ [61]) with
  | none =>
    rw [hz] at hf
    rw [RewriteVariable_pair im past name value hn h0, hf,
      RewriteVariable_pair ⟨im.Data, 0⟩ past name value hn h0, hz]
    exact ⟨rfl, rfl⟩
  | some p =>
    rw [hz] at hf
    obtain ⟨a1, a2⟩ := RewriteVariable_data im past name value p hn h0 hf
    obtain ⟨b1, b2⟩ := RewriteVariable_data ⟨im.Data, 0⟩ past name value p hn h0 hz
    exact ⟨a1.trans b1.symm, a2.trans b2.symm⟩

theorem RewriteVariable_cache_hint_witness :
    (RewriteVariable ⟨[7, 8, 9, 113, 61, 51, 0, 0, 0, 9], 5⟩ 9 ([113] ++ [61] ++ [52])).1 =
      (RewriteVariable ⟨[7, 8, 9, 113, 61, 51, 0, 0, 0, 9], 0⟩ 9 ([113] ++ [61] ++ [52])).1 ∧
    (RewriteVariable ⟨[7, 8, 9, 113, 61, 51, 0, 0, 0, 9], 5⟩ 9 ([113] ++ [61] ++ [52])).2.Data =
      (RewriteVariable ⟨[7, 8, 9, 113, 61, 51, 0, 0, 0, 9], 0⟩ 9
        ([113] ++ [61] ++ [52])).2.Data :=
  RewriteVariable_cache_hint ⟨[7, 8, 9, 113, 61, 51, 0, 0, 0, 9], 5⟩ 9 [113] [52]
    (by decide) (by decide) (by decide) (Or.inl (by decide))

/-- C20: for a pair `name=value` (C strings, free of NUL), an image of at most
`SIZE_MAX` bytes and a cached offset that is 0 or a multiple of 65536 not
exceeding the size, if `RewriteVariable` returns `Success` then calling it again
with the same pair on the state it left returns `Success`, matches the leader at
the same index, resolves the same end of the reserved area and leaves every
byte of the image unchanged. -/
theorem RewriteVariable_idempotent (im : ImageInfo_t) (past : Nat) (name value : List Nat)
    (im1 : ImageInfo_t) (hn : 61 ∉ name) (h0 : 0 ∉ name) (hv0 : 0 ∉ value)
    (hmax : im.Size ≤ SIZE_MAX) (halign : im.Offset % 65536 = 0) (_hoff : im.Offset ≤ im.Size)
    (h1 : RewriteVariable im past (name ++ [61] ++ value) = (Success, im1)) :
    (RewriteVariable im1 past (name ++ [61] ++ value)).1 = Success ∧
    (RewriteVariable im1 past (name ++ [61] ++ value)).2.Data = im1.Data ∧
    ∃ p ve ae ve',
      RewriteVariable.find im (name ++ [61]) = some p ∧
      RewriteVariable.find im1 (name ++ [61]) = some p ∧
      FirstNul im.Data (p + (name.length + 1)) ve ∧ FirstNonZero im.Data (ve + 1) ae ∧
      FirstNul im1.Data (p + (name.length + 1)) ve' ∧ FirstNonZero im1.Data (ve' + 1) ae := by
  cases hf : RewriteVariable.find im (name ++ [61]) with
  | none =>
    rw [RewriteVariable_pair im past name value hn h0, hf] at h1
    simp at h1
  | some p =>
    rw [RewriteVariable_pair im past name value hn h0, hf] at h1
    dsimp only at h1
    unfold ImageInfo_t.Size at h1 hmax
    have hs := congrArg Prod.fst h1
    have him := (congrArg Prod.snd h1).symm
    dsimp only at hs him
    obtain ⟨ve, ae, hv, ha, hlim, hfit, hW⟩ :=
      RewriteField_success_inv im.Data past p (p + (name.length + 1))
        (name ++ [61] ++ value ++ [0]) _ (by omega) (Prod.ext hs rfl)
    have hdata : im1.Data = memset (memcpy im.Data p (name ++ [61] ++ value ++ [0]))
        (p + (name ++ [61] ++ value ++ [0]).length) 0
        (ae - p - (name ++ [61] ++ value ++ [0]).length) := by
      rw [him]
      exact hW
    obtain ⟨hocc, hc⟩ := find_some im _ p hf
    have hple := Occurs_le_length hocc (by simp)
    have hp : p < 2 ^ 64 := by
      unfold SIZE_MAX at hmax
      simp only [List.length_append, List.length_singleton] at hple
      omega
    have ho : im1.Offset =
        if p - p % 65536 < im.Offset ∨ im.Offset = 0 then p - p % 65536 else im.Offset := by
      rw [him, ← and_mask p hp]
    have hoff' : im1.Offset ≤ p ∧
        ∀ q, im1.Offset ≤ q → q < p → ¬ Occurs im.Data (name ++ [61]) q := by
      rw [ho]
      rcases hc with ⟨c1, c2⟩ | ⟨c1, c2, c3⟩
      · by_cases hz : im.Offset = 0
        · rw [if_pos (Or.inr hz)]
          exact ⟨Nat.sub_le _ _, fun q _ hq => c2 q (by omega) hq⟩
        · rw [if_neg (by rintro (h | h) <;> omega)]
          exact ⟨c1, c2⟩
      · have hlt : p < im.Offset := by
          by_contra hcon
          exact c2 p (by omega) hocc
        rw [if_pos (Or.inl (by omega))]
        exact ⟨Nat.sub_le _ _, fun q _ hq => c3 q hq⟩
    obtain ⟨s1, s2, s3, s4⟩ := second_call im.Data past name value p ve ae im1.Offset hv0 hocc
      hv ha hlim hfit hoff'.1 hoff'.2
    have hst : im1 = ⟨memset (memcpy im.Data p (name ++ [61] ++ value ++ [0]))
        (p + (name ++ [61] ++ value ++ [0]).length) 0
        (ae - p - (name ++ [61] ++ value ++ [0]).length), im1.Offset⟩ := by
      rw [← hdata]
    rw [← hst] at s1
    rw [← hdata] at s2 s3 s4
    obtain ⟨d1, d2⟩ := RewriteVariable_data im1 past name value p hn h0 s1
    rw [s4] at d1 d2
    exact ⟨d1, d2, p, ve, ae, _, rfl, s1, hv, ha, s2, s3⟩

theorem RewriteVariable_idempotent_witness :
    (RewriteVariable ⟨[7, 113, 61, 52, 0, 0, 0, 9], 0⟩ 9 ([113] ++ [61] ++ [52])).1 = Success ∧
    (RewriteVariable ⟨[7, 113, 61, 52, 0, 0, 0, 9], 0⟩ 9 ([113] ++ [61] ++ [52])).2.Data =
      [7, 113, 61, 52, 0, 0, 0, 9] :=
  ⟨(RewriteVariable_idempotent ⟨[7, 113, 61, 51, 0, 0, 0, 9], 0⟩ 9 [113] [52]
      ⟨[7, 113, 61, 52, 0, 0, 0, 9], 0⟩ (by decide) (by decide) (by decide) (by decide)
      (by decide) (by decide) (by decide)).1,
    (RewriteVariable_idempotent ⟨[7, 113, 61, 51, 0, 0, 0, 9], 0⟩ 9 [113] [52]
      ⟨[7, 113, 61, 52, 0, 0, 0, 9], 0⟩ (by decide) (by decide) (by decide) (by decide)
      (by decide) (by decide) (by decide)).2.1⟩

end QmakePatch
